import Mathlib

/-!
Verification of the execution core of a distributed scientific
visualization pipeline engine (Rust source under src/).

The Rust data structures and functions relevant to the checked claims are
shallowly embedded below: hash maps become association lists, vectors and
queues become lists, fallible operations return Option or Except, and
machine integers whose numeric content is never inspected (ids, float bit
patterns, byte values) become Nat.  Each definition mirrors one source
item, named after it where Lean permits.
-/

/-! ## Generic association-list model of HashMap / DashMap -/

/-- Lookup in an association list, mirroring HashMap::get. -/
def alistLookup {κ α : Type} [DecidableEq κ] (l : List (κ × α)) (k : κ) : Option α :=
  match l with
  | [] => none
  | (a, b) :: t => if a = k then some b else alistLookup t k

/-- Insert (or overwrite) in an association list, mirroring HashMap::insert. -/
def alistInsert {κ α : Type} [DecidableEq κ] (l : List (κ × α)) (k : κ) (v : α) :
    List (κ × α) :=
  match l with
  | [] => [(k, v)]
  | (a, b) :: t => if a = k then (k, v) :: t else (a, b) :: alistInsert t k v

/-- Remove a key from an association list, mirroring HashMap::remove. -/
def alistRemove {κ α : Type} [DecidableEq κ] (l : List (κ × α)) (k : κ) : List (κ × α) :=
  match l with
  | [] => []
  | (a, b) :: t => if a = k then t else (a, b) :: alistRemove t k

/-- Update the entry stored under a key, if any, mirroring HashMap::get_mut
followed by a field assignment. -/
def alistUpdate {κ α : Type} [DecidableEq κ] (l : List (κ × α)) (k : κ) (f : α → α) :
    List (κ × α) :=
  match l with
  | [] => []
  | (a, b) :: t => if a = k then (a, f b) :: t else (a, b) :: alistUpdate t k f

/-! ## Message model (src/core/message.rs)

Strings are modelled as their byte sequences (`List Nat`), 32-bit and
64-bit machine integers and float bit patterns as `Nat`, the 128-bit
`MessageId` and `ObjectId` as `Nat`. -/

/-- Priority levels of src/core/message.rs. -/
inductive Priority where
  | low
  | normal
  | high
  | critical
deriving DecidableEq

/-- ParameterValue of src/core/message.rs and src/core/parameter.rs; numeric
contents are carried as bit patterns. -/
inductive ParameterValue where
  | int (v : Nat)
  | float (bits : Nat)
  | str (s : List Nat)
  | bool (b : Bool)
  | vecInt (v : List Nat)
  | vecFloat (v : List Nat)
  | vecStr (v : List (List Nat))
deriving DecidableEq

/-- ParameterType of src/core/message.rs and src/core/parameter.rs. -/
inductive ParameterType where
  | int (min max : Option Nat)
  | float (min max : Option Nat)
  | str
  | bool
  | vecInt (min max : Option Nat)
  | vecFloat (min max : Option Nat)
  | vecStr
deriving DecidableEq

/-- MessageType of src/core/message.rs, one constructor per Rust variant. -/
inductive MessageType where
  | execute (module_id : Nat) (timestep : Nat)
  | cancelExecute (module_id : Nat)
  | quit
  | addObject (object_id : Nat) (port_name : List Nat)
  | removeObject (object_id : Nat)
  | setParameter (module_id : Nat) (param_name : List Nat) (value : ParameterValue)
  | addParameter (module_id : Nat) (param_name : List Nat) (param_type : ParameterType)
  | connectPorts (from_module : Nat) (from_port : List Nat) (to_module : Nat) (to_port : List Nat)
  | disconnectPorts (from_module : Nat) (from_port : List Nat) (to_module : Nat) (to_port : List Nat)
  | moduleReady (module_id : Nat)
  | computationComplete (module_id : Nat) (objects_created : List Nat)
  | error (module_id : Nat) (message : List Nat)
  | custom (type_id : Nat) (data : List Nat)
deriving DecidableEq

/-- Message of src/core/message.rs; the SystemTime timestamp is carried as
seconds plus nanoseconds since the epoch. -/
structure Message where
  id : Nat
  sender : Nat
  recipient : Nat
  priority : Priority
  message_type : MessageType
  timestampSecs : Nat
  timestampNanos : Nat
deriving DecidableEq

/-- MessagePayload of src/core/message.rs. -/
inductive MessagePayload where
  | none
  | objectData (d : List Nat)
  | parameterData (d : List Nat)
  | custom (d : List Nat)
deriving DecidableEq

/-- MessageEnvelope of src/core/message.rs. -/
structure MessageEnvelope where
  message : Message
  payload : MessagePayload
deriving DecidableEq

/-! ## Local message queue (src/core/message.rs, MessageQueue)

The tokio unbounded mpsc channel backing a MessageQueue is modelled as the
list of pending envelopes plus the flag saying whether every sender has
disconnected. -/

/-- State of the receiving half of the channel inside a MessageQueue. -/
structure MessageQueueState where
  pending : List MessageEnvelope
  disconnected : Bool

/-- TryRecvError of the tokio mpsc channel. -/
inductive TryRecvError where
  | empty
  | disconnected
deriving DecidableEq

/-- Error enum of src/lib.rs (the cases reachable from the embedded code). -/
inductive CoreError where
  | module (msg : String)
  | sharedMemory (msg : String)
  | serialization
  | mpi
deriving DecidableEq

/-- Semantics of UnboundedReceiver::try_recv: a pending message is returned
first; an empty channel reports Empty while senders remain and Disconnected
after every sender is gone. -/
def tryRecv (q : MessageQueueState) :
    Except TryRecvError (MessageEnvelope × MessageQueueState) :=
  match q.pending with
  | m :: rest => Except.ok (m, { q with pending := rest })
  | [] => Except.error (if q.disconnected then TryRecvError.disconnected else TryRecvError.empty)

/-- MessageQueue::receive_message of src/core/message.rs: match on try_recv,
mapping both Empty and Disconnected to Ok(None). -/
def receiveMessage (q : MessageQueueState) :
    Except CoreError (Option MessageEnvelope × MessageQueueState) :=
  match tryRecv q with
  | Except.ok (m, q1) => Except.ok (some m, q1)
  | Except.error TryRecvError.empty => Except.ok (none, q)
  | Except.error TryRecvError.disconnected => Except.ok (none, q)

/-! ## 1-D data partitioner (src/mpi/mod.rs, DataPartitioner::partition_1d)

Ranks and cluster size are the nonnegative i32 values of the source,
modelled as Nat; arithmetic is the usize arithmetic of the source. -/

/-- DataPartitioner::partition_1d of src/mpi/mod.rs. -/
def partition1d (total_size : Nat) (rank : Nat) (size : Nat) : Nat × Nat :=
  let base_size := total_size / size
  let remainder := total_size % size
  let start := rank * base_size + min rank remainder
  let extra := if rank < remainder then 1 else 0
  let local_size := base_size + extra
  (start, local_size)

/-! ## Object registry (src/core/object.rs)

The registry stores trait objects of which only the id is ever consulted;
an object is modelled as its id together with an opaque payload. -/

/-- Stand-in for an Arc of a dyn Object: its id plus opaque content. -/
structure StoredObject where
  id : Nat
  content : List Nat
deriving DecidableEq

/-- ObjectRegistry of src/core/object.rs. -/
structure ObjectRegistry where
  objects : List (Nat × StoredObject)
deriving DecidableEq

/-- ObjectRegistry::new. -/
def ObjectRegistry.new : ObjectRegistry := ⟨[]⟩

/-- ObjectRegistry::store of src/core/object.rs: unconditionally inserts the
object under its own id and returns the id. -/
def ObjectRegistry.store (r : ObjectRegistry) (object : StoredObject) :
    Nat × ObjectRegistry :=
  (object.id, ⟨alistInsert r.objects object.id object⟩)

/-- ObjectRegistry::get of src/core/object.rs. -/
def ObjectRegistry.get (r : ObjectRegistry) (id : Nat) : Option StoredObject :=
  alistLookup r.objects id

/-! ## Parameter set (src/core/parameter.rs) -/

/-- Parameter of src/core/parameter.rs. -/
structure Parameter where
  name : String
  description : String
  value : ParameterValue
  param_type : ParameterType
  min_value : Option ParameterValue
  max_value : Option ParameterValue
deriving DecidableEq

/-- ParameterSet of src/core/parameter.rs. -/
structure ParameterSet where
  parameters : List (String × Parameter)
deriving DecidableEq

/-- ParameterSet::add of src/core/parameter.rs. -/
def ParameterSet.add (ps : ParameterSet) (param : Parameter) : ParameterSet :=
  ⟨alistInsert ps.parameters param.name param⟩

/-- ParameterSet::set_value of src/core/parameter.rs: looks the parameter up,
validates only that the value variant matches the declared kind, and stores
the new value.  The declared min and max bounds are never consulted. -/
def ParameterSet.setValue (ps : ParameterSet) (name : String) (value : ParameterValue) :
    Except String ParameterSet :=
  match alistLookup ps.parameters name with
  | some param =>
    let updated : ParameterSet :=
      ⟨alistUpdate ps.parameters name (fun p => { p with value := value })⟩
    match param.param_type, value with
    | ParameterType.int _ _, ParameterValue.int _ => Except.ok updated
    | ParameterType.float _ _, ParameterValue.float _ => Except.ok updated
    | ParameterType.str, ParameterValue.str _ => Except.ok updated
    | ParameterType.bool, ParameterValue.bool _ => Except.ok updated
    | ParameterType.vecInt _ _, ParameterValue.vecInt _ => Except.ok updated
    | ParameterType.vecFloat _ _, ParameterValue.vecFloat _ => Except.ok updated
    | ParameterType.vecStr, ParameterValue.vecStr _ => Except.ok updated
    | _, _ => Except.error ("Type mismatch for parameter " ++ name)
  | none => Except.error ("Parameter " ++ name ++ " not found")

/-! ## Workflow executor state (src/compute/executor.rs) -/

/-- WorkflowStatus of src/compute/executor.rs. -/
inductive WorkflowStatus where
  | pending
  | running
  | completed
  | failed
  | cancelled
deriving DecidableEq

/-- WorkflowState of src/compute/executor.rs (the start_time Instant and the
immutable spec are omitted; cancel_workflow touches neither). -/
structure WorkflowState where
  id : String
  status : WorkflowStatus
  tasks_completed : Nat
  tasks_total : Nat
deriving DecidableEq

/-- WorkflowExecutor::cancel_workflow of src/compute/executor.rs: if the
workflow exists its status is unconditionally overwritten with Cancelled;
the call always returns Ok. -/
def cancelWorkflow (workflows : List (String × WorkflowState)) (workflow_id : String) :
    Except CoreError (List (String × WorkflowState)) :=
  Except.ok (alistUpdate workflows workflow_id
    (fun st => { st with status := WorkflowStatus.cancelled }))

/-! ## Task graph (src/compute/task.rs)

The Arc module handle and the compute context carried by a Task are opaque
to every TaskGraph operation and are omitted; the semaphore only bounds
concurrency and plays no role in the embedded transition functions. -/

/-- TaskStatus of src/compute/task.rs. -/
inductive TaskStatus where
  | pending
  | ready
  | running
  | completed
  | failed
  | cancelled
deriving DecidableEq

/-- TaskPriority of src/compute/task.rs, ordered Low < Normal < High < Critical. -/
inductive TaskPriority where
  | low
  | normal
  | high
  | critical
deriving DecidableEq

/-- Numeric rank realizing the derived Ord of TaskPriority. -/
def TaskPriority.rank : TaskPriority → Nat
  | TaskPriority.low => 0
  | TaskPriority.normal => 1
  | TaskPriority.high => 2
  | TaskPriority.critical => 3

/-- Task of src/compute/task.rs (named VTask here; Task is taken by the Lean core). -/
structure VTask where
  id : Nat
  dependencies : List Nat
  dependents : List Nat
  status : TaskStatus
  priority : TaskPriority
deriving DecidableEq

/-- Task::dependencies_satisfied of src/compute/task.rs. -/
def VTask.dependenciesSatisfied (t : VTask) (completed : List Nat) : Bool :=
  t.dependencies.all (fun dep => completed.contains dep)

/-- TaskGraph of src/compute/task.rs: task map, completion set, FIFO ready
queue. -/
structure TaskGraph where
  tasks : List (Nat × VTask)
  completed : List Nat
  ready_queue : List Nat
deriving DecidableEq

/-- TaskGraph::new of src/compute/task.rs. -/
def TaskGraph.new : TaskGraph := ⟨[], [], []⟩

/-- TaskGraph::add_task of src/compute/task.rs: enqueue the id if the
dependencies are already completed, then insert the task into the map.
No uniqueness or cycle check is performed and the function cannot fail. -/
def TaskGraph.addTask (g : TaskGraph) (task : VTask) : TaskGraph :=
  let g1 :=
    if task.dependenciesSatisfied g.completed
    then { g with ready_queue := g.ready_queue ++ [task.id] }
    else g
  { g1 with tasks := alistInsert g1.tasks task.id task }

/-- TaskGraph::get_ready_task of src/compute/task.rs: pop_front on the
ready queue. -/
def TaskGraph.getReadyTask (g : TaskGraph) : Option Nat × TaskGraph :=
  match g.ready_queue with
  | [] => (none, g)
  | id :: rest => (some id, { g with ready_queue := rest })

/-- TaskGraph::mark_completed of src/compute/task.rs. -/
def TaskGraph.markCompleted (g : TaskGraph) (task_id : Nat) : TaskGraph :=
  if g.completed.contains task_id then g
  else
    let dependents :=
      match alistLookup g.tasks task_id with
      | some t => t.dependents
      | none => []
    let g1 := { g with completed := task_id :: g.completed }
    dependents.foldl (fun acc dep_id =>
      match alistLookup acc.tasks dep_id with
      | some dependent =>
        if dependent.dependenciesSatisfied acc.completed
            && !(acc.ready_queue.contains dep_id)
        then { acc with ready_queue := acc.ready_queue ++ [dep_id] }
        else acc
      | none => acc) g1


/-! ## Binary codec for message envelopes

Modelled from the spec: the serializer invoked by MpiMessageChannel is the
external bincode crate, which is not part of src/; following section 6 of
the design, an envelope is encoded as the Message fields in declaration
order (id 16 bytes, sender u32, recipient u32, priority u8, kind tag u8
plus kind body, timestamp u64 seconds plus u32 nanoseconds) followed by the
tagged, u64-length-prefixed payload bytes.  All multi-byte integers are
little-endian; variant tags are single bytes; sequences are length-prefixed
by a u64. -/

/-- Little-endian encoding of a number into a fixed count of bytes. -/
def putNat : Nat → Nat → List Nat
  | 0, _ => []
  | w + 1, n => n % 256 :: putNat w (n / 256)

/-- Little-endian decoding of a fixed count of bytes. -/
def getNat : Nat → List Nat → Option (Nat × List Nat)
  | 0, bs => some (0, bs)
  | _ + 1, [] => none
  | w + 1, b :: bs =>
    match getNat w bs with
    | none => none
    | some (n, rest) => some (b + 256 * n, rest)

/-- A u64-length-prefixed byte string. -/
def putBytes (l : List Nat) : List Nat :=
  putNat 8 l.length ++ l

/-- Decode a u64-length-prefixed byte string. -/
def getBytes (bs : List Nat) : Option (List Nat × List Nat) :=
  match getNat 8 bs with
  | none => none
  | some (n, rest) => if n ≤ rest.length then some (rest.take n, rest.drop n) else none

/-- A u64-length-prefixed sequence of encoded elements. -/
def putListWith {α : Type} (enc : α → List Nat) (l : List α) : List Nat :=
  putNat 8 l.length ++ (l.map enc).flatten

/-- Decode a fixed count of elements. -/
def getCount {α : Type} (dec : List Nat → Option (α × List Nat)) :
    Nat → List Nat → Option (List α × List Nat)
  | 0, bs => some ([], bs)
  | n + 1, bs =>
    match dec bs with
    | none => none
    | some (a, bs1) =>
      match getCount dec n bs1 with
      | none => none
      | some (l, rest) => some (a :: l, rest)

/-- Decode a u64-length-prefixed sequence of elements. -/
def getListWith {α : Type} (dec : List Nat → Option (α × List Nat)) (bs : List Nat) :
    Option (List α × List Nat) :=
  match getNat 8 bs with
  | none => none
  | some (n, rest) => getCount dec n rest

/-- Encode an optional u32-sized number, one tag byte then the value. -/
def putOptNat (o : Option Nat) : List Nat :=
  match o with
  | none => [0]
  | some n => 1 :: putNat 4 n

/-- Decode an optional u32-sized number. -/
def getOptNat (bs : List Nat) : Option (Option Nat × List Nat) :=
  match bs with
  | 0 :: rest => some (none, rest)
  | 1 :: rest =>
    match getNat 4 rest with
    | none => none
    | some (n, r) => some (some n, r)
  | _ => none

/-- Encode a Bool as one byte. -/
def putBool (b : Bool) : List Nat :=
  [if b then 1 else 0]

/-- Decode a Bool byte. -/
def getBool (bs : List Nat) : Option (Bool × List Nat) :=
  match bs with
  | 0 :: rest => some (false, rest)
  | 1 :: rest => some (true, rest)
  | _ => none

/-- Encode a priority as its discriminant byte. -/
def putPriority : Priority → List Nat
  | Priority.low => [0]
  | Priority.normal => [1]
  | Priority.high => [2]
  | Priority.critical => [3]

/-- Decode a priority byte. -/
def getPriority (bs : List Nat) : Option (Priority × List Nat) :=
  match bs with
  | 0 :: rest => some (Priority.low, rest)
  | 1 :: rest => some (Priority.normal, rest)
  | 2 :: rest => some (Priority.high, rest)
  | 3 :: rest => some (Priority.critical, rest)
  | _ => none

/-- Encode a ParameterValue, tag byte then body. -/
def putParameterValue : ParameterValue → List Nat
  | ParameterValue.int v => 0 :: putNat 4 v
  | ParameterValue.float b => 1 :: putNat 4 b
  | ParameterValue.str s => 2 :: putBytes s
  | ParameterValue.bool b => 3 :: putBool b
  | ParameterValue.vecInt l => 4 :: putListWith (putNat 4) l
  | ParameterValue.vecFloat l => 5 :: putListWith (putNat 4) l
  | ParameterValue.vecStr l => 6 :: putListWith putBytes l

/-- Decode a ParameterValue. -/
def getParameterValue (bs : List Nat) : Option (ParameterValue × List Nat) :=
  match bs with
  | 0 :: r => (getNat 4 r).map (fun p => (ParameterValue.int p.1, p.2))
  | 1 :: r => (getNat 4 r).map (fun p => (ParameterValue.float p.1, p.2))
  | 2 :: r => (getBytes r).map (fun p => (ParameterValue.str p.1, p.2))
  | 3 :: r => (getBool r).map (fun p => (ParameterValue.bool p.1, p.2))
  | 4 :: r => (getListWith (getNat 4) r).map (fun p => (ParameterValue.vecInt p.1, p.2))
  | 5 :: r => (getListWith (getNat 4) r).map (fun p => (ParameterValue.vecFloat p.1, p.2))
  | 6 :: r => (getListWith getBytes r).map (fun p => (ParameterValue.vecStr p.1, p.2))
  | _ => none

/-- Encode a ParameterType, tag byte then optional bounds. -/
def putParameterType : ParameterType → List Nat
  | ParameterType.int mn mx => 0 :: (putOptNat mn ++ putOptNat mx)
  | ParameterType.float mn mx => 1 :: (putOptNat mn ++ putOptNat mx)
  | ParameterType.str => [2]
  | ParameterType.bool => [3]
  | ParameterType.vecInt mn mx => 4 :: (putOptNat mn ++ putOptNat mx)
  | ParameterType.vecFloat mn mx => 5 :: (putOptNat mn ++ putOptNat mx)
  | ParameterType.vecStr => [6]

/-- Decode a ParameterType. -/
def getParameterType (bs : List Nat) : Option (ParameterType × List Nat) :=
  match bs with
  | 0 :: r => (getOptNat r).bind (fun p1 =>
      (getOptNat p1.2).map (fun p2 => (ParameterType.int p1.1 p2.1, p2.2)))
  | 1 :: r => (getOptNat r).bind (fun p1 =>
      (getOptNat p1.2).map (fun p2 => (ParameterType.float p1.1 p2.1, p2.2)))
  | 2 :: r => some (ParameterType.str, r)
  | 3 :: r => some (ParameterType.bool, r)
  | 4 :: r => (getOptNat r).bind (fun p1 =>
      (getOptNat p1.2).map (fun p2 => (ParameterType.vecInt p1.1 p2.1, p2.2)))
  | 5 :: r => (getOptNat r).bind (fun p1 =>
      (getOptNat p1.2).map (fun p2 => (ParameterType.vecFloat p1.1 p2.1, p2.2)))
  | 6 :: r => some (ParameterType.vecStr, r)
  | _ => none

/-- Encode a MessageType, tag byte in declaration order then the fields. -/
def putMessageType : MessageType → List Nat
  | MessageType.execute m t => 0 :: (putNat 4 m ++ putNat 4 t)
  | MessageType.cancelExecute m => 1 :: putNat 4 m
  | MessageType.quit => [2]
  | MessageType.addObject oid port => 3 :: (putNat 16 oid ++ putBytes port)
  | MessageType.removeObject oid => 4 :: putNat 16 oid
  | MessageType.setParameter m name v => 5 :: (putNat 4 m ++ putBytes name ++ putParameterValue v)
  | MessageType.addParameter m name t => 6 :: (putNat 4 m ++ putBytes name ++ putParameterType t)
  | MessageType.connectPorts fm fp tm tp =>
      7 :: (putNat 4 fm ++ putBytes fp ++ putNat 4 tm ++ putBytes tp)
  | MessageType.disconnectPorts fm fp tm tp =>
      8 :: (putNat 4 fm ++ putBytes fp ++ putNat 4 tm ++ putBytes tp)
  | MessageType.moduleReady m => 9 :: putNat 4 m
  | MessageType.computationComplete m objs => 10 :: (putNat 4 m ++ putListWith (putNat 16) objs)
  | MessageType.error m txt => 11 :: (putNat 4 m ++ putBytes txt)
  | MessageType.custom tid d => 12 :: (putNat 4 tid ++ putBytes d)

/-- Decode a MessageType. -/
def getMessageType (bs : List Nat) : Option (MessageType × List Nat) :=
  match bs with
  | [] => none
  | tag :: r =>
    if tag = 0 then (getNat 4 r).bind (fun p1 =>
      (getNat 4 p1.2).map (fun p2 => (MessageType.execute p1.1 p2.1, p2.2)))
    else if tag = 1 then (getNat 4 r).map (fun p => (MessageType.cancelExecute p.1, p.2))
    else if tag = 2 then some (MessageType.quit, r)
    else if tag = 3 then (getNat 16 r).bind (fun p1 =>
      (getBytes p1.2).map (fun p2 => (MessageType.addObject p1.1 p2.1, p2.2)))
    else if tag = 4 then (getNat 16 r).map (fun p => (MessageType.removeObject p.1, p.2))
    else if tag = 5 then (getNat 4 r).bind (fun p1 =>
      (getBytes p1.2).bind (fun p2 =>
      (getParameterValue p2.2).map (fun p3 => (MessageType.setParameter p1.1 p2.1 p3.1, p3.2))))
    else if tag = 6 then (getNat 4 r).bind (fun p1 =>
      (getBytes p1.2).bind (fun p2 =>
      (getParameterType p2.2).map (fun p3 => (MessageType.addParameter p1.1 p2.1 p3.1, p3.2))))
    else if tag = 7 then (getNat 4 r).bind (fun p1 =>
      (getBytes p1.2).bind (fun p2 =>
      (getNat 4 p2.2).bind (fun p3 =>
      (getBytes p3.2).map (fun p4 =>
        (MessageType.connectPorts p1.1 p2.1 p3.1 p4.1, p4.2)))))
    else if tag = 8 then (getNat 4 r).bind (fun p1 =>
      (getBytes p1.2).bind (fun p2 =>
      (getNat 4 p2.2).bind (fun p3 =>
      (getBytes p3.2).map (fun p4 =>
        (MessageType.disconnectPorts p1.1 p2.1 p3.1 p4.1, p4.2)))))
    else if tag = 9 then (getNat 4 r).map (fun p => (MessageType.moduleReady p.1, p.2))
    else if tag = 10 then (getNat 4 r).bind (fun p1 =>
      (getListWith (getNat 16) p1.2).map (fun p2 =>
        (MessageType.computationComplete p1.1 p2.1, p2.2)))
    else if tag = 11 then (getNat 4 r).bind (fun p1 =>
      (getBytes p1.2).map (fun p2 => (MessageType.error p1.1 p2.1, p2.2)))
    else if tag = 12 then (getNat 4 r).bind (fun p1 =>
      (getBytes p1.2).map (fun p2 => (MessageType.custom p1.1 p2.1, p2.2)))
    else none

/-- Encode a Message, fields in declaration order. -/
def putMessage (m : Message) : List Nat :=
  putNat 16 m.id ++ putNat 4 m.sender ++ putNat 4 m.recipient ++
    putPriority m.priority ++ putMessageType m.message_type ++
    putNat 8 m.timestampSecs ++ putNat 4 m.timestampNanos

/-- Decode a Message. -/
def getMessage (bs : List Nat) : Option (Message × List Nat) :=
  (getNat 16 bs).bind (fun p1 =>
  (getNat 4 p1.2).bind (fun p2 =>
  (getNat 4 p2.2).bind (fun p3 =>
  (getPriority p3.2).bind (fun p4 =>
  (getMessageType p4.2).bind (fun p5 =>
  (getNat 8 p5.2).bind (fun p6 =>
  (getNat 4 p6.2).map (fun p7 =>
    (Message.mk p1.1 p2.1 p3.1 p4.1 p5.1 p6.1 p7.1, p7.2))))))))

/-- Encode a MessagePayload, tag byte then length-prefixed bytes. -/
def putPayload : MessagePayload → List Nat
  | MessagePayload.none => [0]
  | MessagePayload.objectData d => 1 :: putBytes d
  | MessagePayload.parameterData d => 2 :: putBytes d
  | MessagePayload.custom d => 3 :: putBytes d

/-- Decode a MessagePayload. -/
def getPayload (bs : List Nat) : Option (MessagePayload × List Nat) :=
  match bs with
  | 0 :: r => some (MessagePayload.none, r)
  | 1 :: r => (getBytes r).map (fun p => (MessagePayload.objectData p.1, p.2))
  | 2 :: r => (getBytes r).map (fun p => (MessagePayload.parameterData p.1, p.2))
  | 3 :: r => (getBytes r).map (fun p => (MessagePayload.custom p.1, p.2))
  | _ => none

/-- Serialize a MessageEnvelope: the message followed by the payload. -/
def serializeEnvelope (e : MessageEnvelope) : List Nat :=
  putMessage e.message ++ putPayload e.payload

/-- Deserialize a MessageEnvelope. -/
def deserializeEnvelope (bs : List Nat) : Option MessageEnvelope :=
  (getMessage bs).bind (fun p1 =>
  (getPayload p1.2).map (fun p2 => MessageEnvelope.mk p1.1 p2.1))

/-! ## Well-formedness: machine-integer fields fit their declared widths -/

/-- The content of an optional u32 field fits in 32 bits. -/
def WFOpt : Option Nat → Prop
  | none => True
  | some n => n < 2 ^ 32

/-- Fields of a ParameterValue fit their declared widths. -/
def WFValue : ParameterValue → Prop
  | ParameterValue.int v => v < 2 ^ 32
  | ParameterValue.float b => b < 2 ^ 32
  | ParameterValue.str s => s.length < 2 ^ 64
  | ParameterValue.bool _ => True
  | ParameterValue.vecInt l => l.length < 2 ^ 64 ∧ ∀ x ∈ l, x < 2 ^ 32
  | ParameterValue.vecFloat l => l.length < 2 ^ 64 ∧ ∀ x ∈ l, x < 2 ^ 32
  | ParameterValue.vecStr l => l.length < 2 ^ 64 ∧ ∀ s ∈ l, s.length < 2 ^ 64

/-- Fields of a ParameterType fit their declared widths. -/
def WFPType : ParameterType → Prop
  | ParameterType.int mn mx => WFOpt mn ∧ WFOpt mx
  | ParameterType.float mn mx => WFOpt mn ∧ WFOpt mx
  | ParameterType.str => True
  | ParameterType.bool => True
  | ParameterType.vecInt mn mx => WFOpt mn ∧ WFOpt mx
  | ParameterType.vecFloat mn mx => WFOpt mn ∧ WFOpt mx
  | ParameterType.vecStr => True

/-- Fields of a MessageType fit their declared widths. -/
def WFKind : MessageType → Prop
  | MessageType.execute m t => m < 2 ^ 32 ∧ t < 2 ^ 32
  | MessageType.cancelExecute m => m < 2 ^ 32
  | MessageType.quit => True
  | MessageType.addObject oid port => oid < 2 ^ 128 ∧ port.length < 2 ^ 64
  | MessageType.removeObject oid => oid < 2 ^ 128
  | MessageType.setParameter m name v => m < 2 ^ 32 ∧ name.length < 2 ^ 64 ∧ WFValue v
  | MessageType.addParameter m name t => m < 2 ^ 32 ∧ name.length < 2 ^ 64 ∧ WFPType t
  | MessageType.connectPorts fm fp tm tp =>
      fm < 2 ^ 32 ∧ fp.length < 2 ^ 64 ∧ tm < 2 ^ 32 ∧ tp.length < 2 ^ 64
  | MessageType.disconnectPorts fm fp tm tp =>
      fm < 2 ^ 32 ∧ fp.length < 2 ^ 64 ∧ tm < 2 ^ 32 ∧ tp.length < 2 ^ 64
  | MessageType.moduleReady m => m < 2 ^ 32
  | MessageType.computationComplete m objs =>
      m < 2 ^ 32 ∧ objs.length < 2 ^ 64 ∧ ∀ o ∈ objs, o < 2 ^ 128
  | MessageType.error m txt => m < 2 ^ 32 ∧ txt.length < 2 ^ 64
  | MessageType.custom tid d => tid < 2 ^ 32 ∧ d.length < 2 ^ 64

/-- Fields of a Message fit their declared widths. -/
def WFMessage (m : Message) : Prop :=
  m.id < 2 ^ 128 ∧ m.sender < 2 ^ 32 ∧ m.recipient < 2 ^ 32 ∧
    WFKind m.message_type ∧ m.timestampSecs < 2 ^ 64 ∧ m.timestampNanos < 2 ^ 32

/-- The payload bytes of a MessagePayload are u64-addressable. -/
def WFPayload : MessagePayload → Prop
  | MessagePayload.none => True
  | MessagePayload.objectData d => d.length < 2 ^ 64
  | MessagePayload.parameterData d => d.length < 2 ^ 64
  | MessagePayload.custom d => d.length < 2 ^ 64

/-- Fields of a MessageEnvelope fit their declared widths. -/
def WFEnvelope (e : MessageEnvelope) : Prop :=
  WFMessage e.message ∧ WFPayload e.payload

/-! ## Message router (src/core/message.rs, MessageRouter)

A local queue is modelled by its list of queued envelopes; an MPI send is
recorded as an emitted action carrying the destination rank and the
serialized bytes. -/

/-- MpiMessageChannel of src/core/message.rs: the rank and size scalars. -/
structure MpiMessageChannel where
  rank : Int
  size : Int
deriving DecidableEq

/-- One network send performed by MpiMessageChannel::send_message. -/
inductive SentAction where
  | mpiSend (rank : Int) (data : List Nat)
deriving DecidableEq

/-- Destination rank of a send action. -/
def SentAction.sentRank : SentAction → Int
  | SentAction.mpiSend r _ => r

/-- MpiMessageChannel::send_message of src/core/message.rs: serialize once;
recipient 0 broadcasts to every rank other than self, otherwise send to the
recipient rank. -/
def mpiSendMessage (ch : MpiMessageChannel) (envelope : MessageEnvelope) : List SentAction :=
  let data := serializeEnvelope envelope
  if envelope.message.recipient = 0 then
    (List.range ch.size.toNat).filterMap (fun k : Nat =>
      if Int.ofNat k ≠ ch.rank then some (SentAction.mpiSend (Int.ofNat k) data) else none)
  else
    [SentAction.mpiSend (Int.ofNat envelope.message.recipient) data]

/-- MessageRouter of src/core/message.rs (the handlers map is unused by
route_message and omitted). -/
structure MessageRouter where
  local_queues : List (Nat × List MessageEnvelope)
  mpi_channel : Option MpiMessageChannel
deriving DecidableEq

/-- MessageRouter::route_message of src/core/message.rs: deliver to a local
queue when the recipient module is registered, else hand to the MPI channel
when attached, else fail with the no-route error. -/
def routeMessage (router : MessageRouter) (envelope : MessageEnvelope) :
    Except CoreError (MessageRouter × List SentAction) :=
  match alistLookup router.local_queues envelope.message.recipient with
  | some q =>
    Except.ok ({ router with
      local_queues := alistInsert router.local_queues envelope.message.recipient
        (q ++ [envelope]) }, [])
  | none =>
    match router.mpi_channel with
    | some ch => Except.ok (router, mpiSendMessage ch envelope)
    | none => Except.error (CoreError.module
        ("No route to module " ++ toString envelope.message.recipient))


/-! ## Shared-memory arena allocator (src/core/shm.rs)

The HashMap of live allocations is an association list offset → length;
the Vec of free blocks is a list of (offset, length) pairs in the order the
source maintains them. -/

/-- SharedAllocator of src/core/shm.rs. -/
structure SharedAllocator where
  total_size : Nat
  allocations : List (Nat × Nat)
  free_blocks : List (Nat × Nat)
deriving DecidableEq

/-- SharedAllocator::new of src/core/shm.rs: one free block spanning the
whole region. -/
def SharedAllocator.new (total_size : Nat) : SharedAllocator :=
  ⟨total_size, [], [(0, total_size)]⟩

/-- The first-fit scan of SharedAllocator::allocate: the first free block
whose size is at least the request, together with the remaining blocks in
their original order. -/
def findFit (free : List (Nat × Nat)) (size : Nat) :
    Option (Nat × Nat × List (Nat × Nat)) :=
  match free with
  | [] => none
  | (o, bs) :: t =>
    if size ≤ bs then some (o, bs, t)
    else
      match findFit t size with
      | none => none
      | some (o2, bs2, rest) => some (o2, bs2, (o, bs) :: rest)

/-- SharedAllocator::allocate of src/core/shm.rs: remove the first fitting
free block, push the split remainder (if any) at the back of the free list,
record the allocation; None models the out-of-memory error. -/
def SharedAllocator.allocate (a : SharedAllocator) (size : Nat) :
    Option (Nat × SharedAllocator) :=
  match findFit a.free_blocks size with
  | none => none
  | some (o, bs, rest) =>
    let free1 := if size < bs then rest ++ [(o + size, bs - size)] else rest
    some (o, ⟨a.total_size, alistInsert a.allocations o size, free1⟩)

/-- Ordering of free blocks by offset, as used by the sort inside
coalesce_free_blocks. -/
def offLE (b1 b2 : Nat × Nat) : Prop := b1.1 ≤ b2.1

instance : DecidableRel offLE := fun b1 b2 => Nat.decLe b1.1 b2.1

instance : IsTotal (Nat × Nat) offLE := ⟨fun a b => Nat.le_total a.1 b.1⟩

instance : IsTrans (Nat × Nat) offLE := ⟨fun _ _ _ => Nat.le_trans⟩

/-- The merge loop of SharedAllocator::coalesce_free_blocks: on the sorted
list, merge a block with its successor whenever they are offset-adjacent,
else advance. -/
def coalesceSorted : List (Nat × Nat) → List (Nat × Nat)
  | [] => []
  | [x] => [x]
  | (o1, s1) :: (o2, s2) :: t =>
    if o1 + s1 = o2 then coalesceSorted ((o1, s1 + s2) :: t)
    else (o1, s1) :: coalesceSorted ((o2, s2) :: t)
termination_by l => l.length

/-- SharedAllocator::coalesce_free_blocks of src/core/shm.rs: stable sort by
offset, then merge adjacent blocks. -/
def coalesceFreeBlocks (free : List (Nat × Nat)) : List (Nat × Nat) :=
  coalesceSorted (List.insertionSort offLE free)

/-- SharedAllocator::deallocate of src/core/shm.rs: fail unless the offset
is a recorded allocation; otherwise drop the record, push the freed extent
and coalesce. -/
def SharedAllocator.deallocate (a : SharedAllocator) (offset size : Nat) :
    Option SharedAllocator :=
  match alistLookup a.allocations offset with
  | none => none
  | some _ =>
    some ⟨a.total_size, alistRemove a.allocations offset,
      coalesceFreeBlocks (a.free_blocks ++ [(offset, size)])⟩

/-- One arena operation as issued by SharedArena: store_object allocates a
positive number of bytes (a bincode serialization is never empty), and
remove_object deallocates with exactly the recorded length. -/
inductive ArenaStep : SharedAllocator → SharedAllocator → Prop where
  | alloc (a : SharedAllocator) (size o : Nat) (a2 : SharedAllocator) :
      0 < size → a.allocate size = some (o, a2) → ArenaStep a a2
  | dealloc (a : SharedAllocator) (offset size : Nat) (a2 : SharedAllocator) :
      alistLookup a.allocations offset = some size →
      a.deallocate offset size = some a2 → ArenaStep a a2

/-- Allocator states reachable from a fresh arena of the given capacity. -/
def ArenaReachable (c : Nat) (a : SharedAllocator) : Prop :=
  Relation.ReflTransGen ArenaStep (SharedAllocator.new c) a

/-- Total length of the listed extents. -/
def sumLens (l : List (Nat × Nat)) : Nat := (l.map Prod.snd).sum

/-- The blocks, in list order, tile [lo, hi) without gaps; every block is
nonempty. -/
def chainFrom (lo hi : Nat) : List (Nat × Nat) → Prop
  | [] => lo = hi
  | (o, s) :: t => o = lo ∧ 0 < s ∧ chainFrom (lo + s) hi t

/-- Some ordering of the blocks tiles [0, c) exactly. -/
def Partitions (c : Nat) (blocks : List (Nat × Nat)) : Prop :=
  ∃ l, List.Perm l blocks ∧ chainFrom 0 c l

/-- Two extents are not offset-adjacent in either direction. -/
def adjFree (b1 b2 : Nat × Nat) : Prop :=
  b1.1 + b1.2 ≠ b2.1 ∧ b2.1 + b2.2 ≠ b1.1

/-- No two free extents are offset-adjacent (the maximally-coalesced
condition of the spec). -/
def NoAdj (free : List (Nat × Nat)) : Prop := free.Pairwise adjFree

/-- The arena invariant: the live allocations and the free blocks together
partition [0, capacity), and the free list is maximally coalesced. -/
def ArenaInv (c : Nat) (a : SharedAllocator) : Prop :=
  a.total_size = c ∧ Partitions c (a.allocations ++ a.free_blocks) ∧ NoAdj a.free_blocks

/-- Blocks occupying disjoint intervals, in either order. -/
def disjBlocks (b1 b2 : Nat × Nat) : Prop :=
  b1.1 + b1.2 ≤ b2.1 ∨ b2.1 + b2.2 ≤ b1.1

/-- Strict separation: the first block ends strictly before the second
starts. -/
def strictSep (b1 b2 : Nat × Nat) : Prop := b1.1 + b1.2 < b2.1

/-! # Theorems -/

/-! ## Lemmas for the partitioner -/

theorem partition1d_sum_aux (b rem : Nat) :
    ∀ s : Nat, ((List.range s).map (fun r => b + if r < rem then 1 else 0)).sum
      = s * b + min s rem := by
  intro s
  induction s with
  | zero => simp
  | succ n ih =>
    rw [List.range_succ, List.map_append, List.sum_append, ih, Nat.succ_mul]
    by_cases h : n < rem
    · simp only [List.map_cons, List.map_nil, List.sum_cons, List.sum_nil, if_pos h]
      omega
    · simp only [List.map_cons, List.map_nil, List.sum_cons, List.sum_nil, if_neg h]
      omega

/-- C10: for every cluster size s > 0 the (start, local_size) pairs returned
by DataPartitioner::partition_1d tile [0, total_size) exactly: rank 0 starts
at 0, each rank with a successor below s starts where the previous one ends,
and the local sizes over ranks 0..s sum to total_size. -/
theorem c10_partition1d_tiles (total s : Nat) (hs : 0 < s) :
    (partition1d total 0 s).1 = 0 ∧
    (∀ r : Nat, r + 1 < s → (partition1d total (r + 1) s).1
      = (partition1d total r s).1 + (partition1d total r s).2) ∧
    ((List.range s).map (fun k => (partition1d total k s).2)).sum = total := by
  refine ⟨by simp [partition1d], ?_, ?_⟩
  · intro r _
    simp only [partition1d]
    rw [Nat.succ_mul]
    by_cases h : r < total % s
    · simp only [if_pos h]
      omega
    · simp only [if_neg h]
      omega
  · have hmod : total % s < s := Nat.mod_lt _ hs
    simp only [partition1d]
    rw [partition1d_sum_aux (total / s) (total % s) s]
    have := Nat.div_add_mod total s
    omega

/-- Witness for C10 at total_size 7 on a cluster of 3 ranks. -/
theorem c10_witness :
    0 < 3 ∧
    ((partition1d 7 0 3).1 = 0 ∧
      (∀ r : Nat, r + 1 < 3 → (partition1d 7 (r + 1) 3).1
        = (partition1d 7 r 3).1 + (partition1d 7 r 3).2) ∧
      ((List.range 3).map (fun k => (partition1d 7 k 3).2)).sum = 7) :=
  ⟨by decide, c10_partition1d_tiles 7 3 (by decide)⟩

/-! ## C9: the local queue never reports an error -/

/-- C9: MessageQueue::receive_message never returns an error: it yields the
oldest pending envelope when one exists and Ok(None) otherwise, with the
result independent of whether the senders have disconnected, so
disconnection is indistinguishable from emptiness at this interface. -/
theorem c9_receive_message_total (q : MessageQueueState) :
    receiveMessage q
      = Except.ok (q.pending.head?, MessageQueueState.mk q.pending.tail q.disconnected) := by
  cases q with
  | mk pending disconnected =>
    cases pending with
    | nil =>
      cases disconnected <;> rfl
    | cons m rest => rfl

/-! ## Association-list lemmas -/

theorem alistLookup_alistInsert_self {κ α : Type} [DecidableEq κ]
    (l : List (κ × α)) (k : κ) (v : α) :
    alistLookup (alistInsert l k v) k = some v := by
  induction l with
  | nil => simp [alistInsert, alistLookup]
  | cons hd t ih =>
    obtain ⟨a, b⟩ := hd
    by_cases h : a = k
    · simp [alistInsert, alistLookup, h]
    · simp [alistInsert, alistLookup, h, ih]

theorem alistLookup_alistUpdate_self {κ α : Type} [DecidableEq κ]
    (l : List (κ × α)) (k : κ) (f : α → α) :
    alistLookup (alistUpdate l k f) k = (alistLookup l k).map f := by
  induction l with
  | nil => simp [alistUpdate, alistLookup]
  | cons hd t ih =>
    obtain ⟨a, b⟩ := hd
    by_cases h : a = k
    · simp [alistUpdate, alistLookup, h]
    · simp [alistUpdate, alistLookup, h, ih]

theorem alistUpdate_idem {κ α : Type} [DecidableEq κ]
    (l : List (κ × α)) (k : κ) (f : α → α) (hf : ∀ a, f (f a) = f a) :
    alistUpdate (alistUpdate l k f) k f = alistUpdate l k f := by
  induction l with
  | nil => simp [alistUpdate]
  | cons hd t ih =>
    obtain ⟨a, b⟩ := hd
    by_cases h : a = k
    · simp [alistUpdate, h, hf]
    · simp [alistUpdate, h, ih]

/-! ## C4: ObjectRegistry::store -/

/-- C4 counterexample: storing a second object under an already-taken id does
not fail with AlreadyExists; it succeeds and silently replaces the first
object, so the previously stored object is lost. -/
theorem c4_counterexample :
    ((ObjectRegistry.new.store ⟨7, [1]⟩).2.store ⟨7, [2]⟩).2.get 7
      = some ⟨7, [2]⟩ ∧ (⟨7, [2]⟩ : StoredObject) ≠ ⟨7, [1]⟩ := by
  exact ⟨rfl, by decide⟩

/-- C4 amended: ObjectRegistry::store always succeeds, returning the object's
own id and inserting the object under it, replacing any object previously
registered there; afterwards get(x.id) returns the stored object. -/
theorem c4_store_then_get (r : ObjectRegistry) (x : StoredObject) :
    (r.store x).1 = x.id ∧ (r.store x).2.get x.id = some x := by
  refine ⟨rfl, ?_⟩
  simp [ObjectRegistry.store, ObjectRegistry.get, alistLookup_alistInsert_self]

/-! ## C7: ParameterSet::set_value -/

/-- C7: with a parameter whose declared bounds are [0, 10], set_value accepts
the out-of-range value 99 and stores it (the claimed OutOfRange rejection is
absent from the source), while a value of the wrong kind is still rejected
with the type-mismatch error. -/
theorem c7_bounds_not_enforced :
    ParameterSet.setValue
        ⟨[("level", ⟨"level", "detail level", ParameterValue.int 1,
            ParameterType.int (some 0) (some 10),
            some (ParameterValue.int 0), some (ParameterValue.int 10)⟩)]⟩
        "level" (ParameterValue.int 99)
      = Except.ok
        ⟨[("level", ⟨"level", "detail level", ParameterValue.int 99,
            ParameterType.int (some 0) (some 10),
            some (ParameterValue.int 0), some (ParameterValue.int 10)⟩)]⟩ ∧
    ParameterSet.setValue
        ⟨[("level", ⟨"level", "detail level", ParameterValue.int 1,
            ParameterType.int (some 0) (some 10),
            some (ParameterValue.int 0), some (ParameterValue.int 10)⟩)]⟩
        "level" (ParameterValue.bool true)
      = Except.error ("Type mismatch for parameter " ++ "level") := by
  exact ⟨rfl, rfl⟩

/-! ## C8: WorkflowExecutor::cancel_workflow -/

/-- C8 counterexample: cancelling a workflow that already finished with status
Completed is not a no-op: the call succeeds but overwrites the terminal
status with Cancelled. -/
theorem c8_counterexample :
    cancelWorkflow [("w", ⟨"w", WorkflowStatus.completed, 3, 3⟩)] "w"
      = Except.ok [("w", ⟨"w", WorkflowStatus.cancelled, 3, 3⟩)] ∧
    WorkflowStatus.cancelled ≠ WorkflowStatus.completed := by
  exact ⟨rfl, by decide⟩

/-- C8 amended: cancel_workflow always returns success; when the workflow
exists its status is unconditionally overwritten with Cancelled whatever it
was before (so terminal Completed and Failed states are not preserved),
other fields are untouched, and a second cancellation is a no-op. -/
theorem c8_cancel_overwrites (workflows : List (String × WorkflowState))
    (wid : String) (st : WorkflowState)
    (h : alistLookup workflows wid = some st) :
    ∃ l1, cancelWorkflow workflows wid = Except.ok l1 ∧
      alistLookup l1 wid = some { st with status := WorkflowStatus.cancelled } ∧
      cancelWorkflow l1 wid = Except.ok l1 := by
  refine ⟨alistUpdate workflows wid (fun s => { s with status := WorkflowStatus.cancelled }),
    rfl, ?_, ?_⟩
  · rw [alistLookup_alistUpdate_self, h]
    rfl
  · simp only [cancelWorkflow]
    rw [alistUpdate_idem]
    intro a
    rfl

/-- Witness for C8 at a concrete running workflow. -/
theorem c8_witness :
    alistLookup [("w", (⟨"w", WorkflowStatus.running, 0, 2⟩ : WorkflowState))] "w"
        = some ⟨"w", WorkflowStatus.running, 0, 2⟩ ∧
    ∃ l1, cancelWorkflow [("w", (⟨"w", WorkflowStatus.running, 0, 2⟩ : WorkflowState))] "w"
        = Except.ok l1 ∧
      alistLookup l1 "w" = some ⟨"w", WorkflowStatus.cancelled, 0, 2⟩ ∧
      cancelWorkflow l1 "w" = Except.ok l1 :=
  ⟨rfl, c8_cancel_overwrites [("w", ⟨"w", WorkflowStatus.running, 0, 2⟩)] "w"
    ⟨"w", WorkflowStatus.running, 0, 2⟩ rfl⟩

/-! ## C2: TaskGraph::add_task performs no validation -/

/-- C2 counterexample: add_task accepts a two-task dependency cycle without
any failure (its return type admits none), and re-adding an id silently
replaces the existing task instead of being rejected. -/
theorem c2_counterexample :
    alistLookup ((TaskGraph.new.addTask ⟨1, [2], [], TaskStatus.pending, TaskPriority.normal⟩).addTask
        ⟨2, [1], [], TaskStatus.pending, TaskPriority.normal⟩).tasks 1
      = some ⟨1, [2], [], TaskStatus.pending, TaskPriority.normal⟩ ∧
    alistLookup ((TaskGraph.new.addTask ⟨1, [2], [], TaskStatus.pending, TaskPriority.normal⟩).addTask
        ⟨2, [1], [], TaskStatus.pending, TaskPriority.normal⟩).tasks 2
      = some ⟨2, [1], [], TaskStatus.pending, TaskPriority.normal⟩ ∧
    alistLookup (((TaskGraph.new.addTask ⟨1, [2], [], TaskStatus.pending, TaskPriority.normal⟩).addTask
        ⟨2, [1], [], TaskStatus.pending, TaskPriority.normal⟩).addTask
        ⟨1, [], [], TaskStatus.pending, TaskPriority.high⟩).tasks 1
      = some ⟨1, [], [], TaskStatus.pending, TaskPriority.high⟩ := by
  exact ⟨rfl, rfl, rfl⟩

/-- C2 amended: add_task never rejects a task: for every graph and task it
simply records the task under its id, replacing any task already there; in
particular neither duplicate ids nor dependency cycles are detected, and a
cyclic graph is handed to execute_all unchanged. -/
theorem c2_addTask_never_rejects (g : TaskGraph) (t : VTask) :
    alistLookup (g.addTask t).tasks t.id = some t := by
  simp only [TaskGraph.addTask]
  by_cases h : t.dependenciesSatisfied g.completed
  · simp [h, alistLookup_alistInsert_self]
  · simp [h, alistLookup_alistInsert_self]

/-! ## C6: get_ready_task ignores priority -/

/-- C6 counterexample: with a Low-priority task enqueued before a
Critical-priority task, get_ready_task returns the Low task, not a task of
maximal priority. -/
theorem c6_counterexample :
    ((TaskGraph.new.addTask ⟨1, [], [], TaskStatus.pending, TaskPriority.low⟩).addTask
        ⟨2, [], [], TaskStatus.pending, TaskPriority.critical⟩).getReadyTask.1 = some 1 ∧
    (alistLookup ((TaskGraph.new.addTask ⟨1, [], [], TaskStatus.pending, TaskPriority.low⟩).addTask
        ⟨2, [], [], TaskStatus.pending, TaskPriority.critical⟩).tasks 1).map VTask.priority
      = some TaskPriority.low ∧
    (alistLookup ((TaskGraph.new.addTask ⟨1, [], [], TaskStatus.pending, TaskPriority.low⟩).addTask
        ⟨2, [], [], TaskStatus.pending, TaskPriority.critical⟩).tasks 2).map VTask.priority
      = some TaskPriority.critical ∧
    TaskPriority.rank TaskPriority.low < TaskPriority.rank TaskPriority.critical := by
  exact ⟨rfl, rfl, rfl, by decide⟩

/-- C6 amended: get_ready_task pops the front of the ready queue in pure FIFO
order of insertion, ignoring task priorities entirely, and leaves the rest
of the graph unchanged. -/
theorem c6_getReadyTask_fifo (g : TaskGraph) :
    g.getReadyTask.1 = g.ready_queue.head? ∧
    g.getReadyTask.2.ready_queue = g.ready_queue.tail ∧
    g.getReadyTask.2.tasks = g.tasks ∧
    g.getReadyTask.2.completed = g.completed := by
  cases h : g.ready_queue with
  | nil => simp [TaskGraph.getReadyTask, h]
  | cons x rest => simp [TaskGraph.getReadyTask, h]

/-! ## Codec round-trip lemmas -/

theorem pow32eq : (2 : Nat) ^ 32 = 256 ^ 4 := by norm_num

theorem pow64eq : (2 : Nat) ^ 64 = 256 ^ 8 := by norm_num

theorem pow128eq : (2 : Nat) ^ 128 = 256 ^ 16 := by norm_num

theorem getNat_putNat (w : Nat) :
    ∀ (n : Nat) (rest : List Nat), n < 256 ^ w →
      getNat w (putNat w n ++ rest) = some (n, rest) := by
  induction w with
  | zero =>
    intro n rest h
    have hn : n = 0 := by simpa using h
    subst hn
    simp [putNat, getNat]
  | succ w ih =>
    intro n rest h
    have h2 : n / 256 < 256 ^ w := by
      rw [Nat.div_lt_iff_lt_mul (by norm_num)]
      calc n < 256 ^ (w + 1) := h
        _ = 256 ^ w * 256 := by rw [pow_succ]
    simp only [putNat, List.cons_append, getNat, List.append_eq]
    rw [ih (n / 256) rest h2]
    simp [Nat.mod_add_div]

theorem getBytes_putBytes (l : List Nat) (rest : List Nat) (h : l.length < 2 ^ 64) :
    getBytes (putBytes l ++ rest) = some (l, rest) := by
  simp only [putBytes, List.append_assoc, getBytes]
  rw [getNat_putNat 8 l.length (l ++ rest) (pow64eq ▸ h)]
  simp only [List.length_append]
  rw [if_pos (Nat.le_add_right _ _)]
  rw [List.take_left, List.drop_left]

theorem getCount_encode {α : Type} (enc : α → List Nat)
    (dec : List Nat → Option (α × List Nat)) (l : List α) (rest : List Nat)
    (hdec : ∀ a ∈ l, ∀ r : List Nat, dec (enc a ++ r) = some (a, r)) :
    getCount dec l.length ((l.map enc).flatten ++ rest) = some (l, rest) := by
  induction l with
  | nil => simp [getCount]
  | cons a t ih =>
    have hd := hdec a (List.mem_cons_self a t)
    simp [getCount, List.append_assoc, hd,
      ih (fun x hx r => hdec x (List.mem_cons_of_mem a hx) r)]

theorem getListWith_putListWith {α : Type} (enc : α → List Nat)
    (dec : List Nat → Option (α × List Nat)) (l : List α) (rest : List Nat)
    (hlen : l.length < 2 ^ 64)
    (hdec : ∀ a ∈ l, ∀ r : List Nat, dec (enc a ++ r) = some (a, r)) :
    getListWith dec (putListWith enc l ++ rest) = some (l, rest) := by
  simp only [putListWith, List.append_assoc, getListWith]
  rw [getNat_putNat 8 l.length _ (pow64eq ▸ hlen)]
  simp [getCount_encode enc dec l rest hdec]

theorem getOptNat_putOptNat (o : Option Nat) (rest : List Nat) (h : WFOpt o) :
    getOptNat (putOptNat o ++ rest) = some (o, rest) := by
  cases o with
  | none => simp [putOptNat, getOptNat]
  | some n =>
    simp only [WFOpt] at h
    simp [putOptNat, getOptNat, getNat_putNat 4 n rest (pow32eq ▸ h)]

theorem getBool_putBool (b : Bool) (rest : List Nat) :
    getBool (putBool b ++ rest) = some (b, rest) := by
  cases b <;> simp [putBool, getBool]

theorem getPriority_putPriority (p : Priority) (rest : List Nat) :
    getPriority (putPriority p ++ rest) = some (p, rest) := by
  cases p <;> simp [putPriority, getPriority]

theorem getParameterValue_putParameterValue (v : ParameterValue) (rest : List Nat)
    (h : WFValue v) : getParameterValue (putParameterValue v ++ rest) = some (v, rest) := by
  cases v with
  | int n =>
    simp only [WFValue] at h
    simp [putParameterValue, getParameterValue, getNat_putNat 4 n rest (pow32eq ▸ h)]
  | float b =>
    simp only [WFValue] at h
    simp [putParameterValue, getParameterValue, getNat_putNat 4 b rest (pow32eq ▸ h)]
  | str s =>
    simp only [WFValue] at h
    simp [putParameterValue, getParameterValue, getBytes_putBytes s rest h]
  | bool b =>
    simp [putParameterValue, getParameterValue, getBool_putBool b rest]
  | vecInt l =>
    simp only [WFValue] at h
    simp [putParameterValue, getParameterValue,
      getListWith_putListWith (putNat 4) (getNat 4) l rest h.1
        (fun a ha r => getNat_putNat 4 a r (pow32eq ▸ h.2 a ha))]
  | vecFloat l =>
    simp only [WFValue] at h
    simp [putParameterValue, getParameterValue,
      getListWith_putListWith (putNat 4) (getNat 4) l rest h.1
        (fun a ha r => getNat_putNat 4 a r (pow32eq ▸ h.2 a ha))]
  | vecStr l =>
    simp only [WFValue] at h
    simp [putParameterValue, getParameterValue,
      getListWith_putListWith putBytes getBytes l rest h.1
        (fun a ha r => getBytes_putBytes a r (h.2 a ha))]

theorem getParameterType_putParameterType (t : ParameterType) (rest : List Nat)
    (h : WFPType t) : getParameterType (putParameterType t ++ rest) = some (t, rest) := by
  cases t with
  | int mn mx =>
    simp only [WFPType] at h
    simp [putParameterType, getParameterType, List.append_assoc,
      getOptNat_putOptNat mn, getOptNat_putOptNat mx, h.1, h.2]
  | float mn mx =>
    simp only [WFPType] at h
    simp [putParameterType, getParameterType, List.append_assoc,
      getOptNat_putOptNat mn, getOptNat_putOptNat mx, h.1, h.2]
  | str => simp [putParameterType, getParameterType]
  | bool => simp [putParameterType, getParameterType]
  | vecInt mn mx =>
    simp only [WFPType] at h
    simp [putParameterType, getParameterType, List.append_assoc,
      getOptNat_putOptNat mn, getOptNat_putOptNat mx, h.1, h.2]
  | vecFloat mn mx =>
    simp only [WFPType] at h
    simp [putParameterType, getParameterType, List.append_assoc,
      getOptNat_putOptNat mn, getOptNat_putOptNat mx, h.1, h.2]
  | vecStr => simp [putParameterType, getParameterType]

theorem getMessageType_putMessageType (k : MessageType) (rest : List Nat)
    (h : WFKind k) : getMessageType (putMessageType k ++ rest) = some (k, rest) := by
  cases k with
  | execute m t =>
    simp only [WFKind] at h
    simp only [putMessageType, List.cons_append, List.append_assoc, getMessageType,
      reduceIte, Nat.reduceEqDiff]
    rw [getNat_putNat 4 m _ (pow32eq ▸ h.1), Option.some_bind,
      getNat_putNat 4 t rest (pow32eq ▸ h.2)]
    rfl
  | cancelExecute m =>
    simp only [WFKind] at h
    simp only [putMessageType, List.cons_append, getMessageType,
      reduceIte, Nat.reduceEqDiff]
    rw [getNat_putNat 4 m rest (pow32eq ▸ h)]
    rfl
  | quit =>
    simp [putMessageType, getMessageType]
  | addObject oid port =>
    simp only [WFKind] at h
    simp only [putMessageType, List.cons_append, List.append_assoc, getMessageType,
      reduceIte, Nat.reduceEqDiff]
    rw [getNat_putNat 16 oid _ (pow128eq ▸ h.1), Option.some_bind,
      getBytes_putBytes port rest h.2]
    rfl
  | removeObject oid =>
    simp only [WFKind] at h
    simp only [putMessageType, List.cons_append, getMessageType,
      reduceIte, Nat.reduceEqDiff]
    rw [getNat_putNat 16 oid rest (pow128eq ▸ h)]
    rfl
  | setParameter m name v =>
    simp only [WFKind] at h
    simp only [putMessageType, List.cons_append, List.append_assoc, getMessageType,
      reduceIte, Nat.reduceEqDiff]
    rw [getNat_putNat 4 m _ (pow32eq ▸ h.1), Option.some_bind,
      getBytes_putBytes name _ h.2.1, Option.some_bind,
      getParameterValue_putParameterValue v rest h.2.2]
    rfl
  | addParameter m name t =>
    simp only [WFKind] at h
    simp only [putMessageType, List.cons_append, List.append_assoc, getMessageType,
      reduceIte, Nat.reduceEqDiff]
    rw [getNat_putNat 4 m _ (pow32eq ▸ h.1), Option.some_bind,
      getBytes_putBytes name _ h.2.1, Option.some_bind,
      getParameterType_putParameterType t rest h.2.2]
    rfl
  | connectPorts fm fp tm tp =>
    simp only [WFKind] at h
    simp only [putMessageType, List.cons_append, List.append_assoc, getMessageType,
      reduceIte, Nat.reduceEqDiff]
    rw [getNat_putNat 4 fm _ (pow32eq ▸ h.1), Option.some_bind,
      getBytes_putBytes fp _ h.2.1, Option.some_bind,
      getNat_putNat 4 tm _ (pow32eq ▸ h.2.2.1), Option.some_bind,
      getBytes_putBytes tp rest h.2.2.2]
    rfl
  | disconnectPorts fm fp tm tp =>
    simp only [WFKind] at h
    simp only [putMessageType, List.cons_append, List.append_assoc, getMessageType,
      reduceIte, Nat.reduceEqDiff]
    rw [getNat_putNat 4 fm _ (pow32eq ▸ h.1), Option.some_bind,
      getBytes_putBytes fp _ h.2.1, Option.some_bind,
      getNat_putNat 4 tm _ (pow32eq ▸ h.2.2.1), Option.some_bind,
      getBytes_putBytes tp rest h.2.2.2]
    rfl
  | moduleReady m =>
    simp only [WFKind] at h
    simp only [putMessageType, List.cons_append, getMessageType,
      reduceIte, Nat.reduceEqDiff]
    rw [getNat_putNat 4 m rest (pow32eq ▸ h)]
    rfl
  | computationComplete m objs =>
    simp only [WFKind] at h
    simp only [putMessageType, List.cons_append, List.append_assoc, getMessageType,
      reduceIte, Nat.reduceEqDiff]
    rw [getNat_putNat 4 m _ (pow32eq ▸ h.1), Option.some_bind,
      getListWith_putListWith (putNat 16) (getNat 16) objs rest h.2.1
        (fun a ha r => getNat_putNat 16 a r (pow128eq ▸ h.2.2 a ha))]
    rfl
  | error m txt =>
    simp only [WFKind] at h
    simp only [putMessageType, List.cons_append, List.append_assoc, getMessageType,
      reduceIte, Nat.reduceEqDiff]
    rw [getNat_putNat 4 m _ (pow32eq ▸ h.1), Option.some_bind,
      getBytes_putBytes txt rest h.2]
    rfl
  | custom tid d =>
    simp only [WFKind] at h
    simp only [putMessageType, List.cons_append, List.append_assoc, getMessageType,
      reduceIte, Nat.reduceEqDiff]
    rw [getNat_putNat 4 tid _ (pow32eq ▸ h.1), Option.some_bind,
      getBytes_putBytes d rest h.2]
    rfl

theorem getMessage_putMessage (m : Message) (rest : List Nat) (h : WFMessage m) :
    getMessage (putMessage m ++ rest) = some (m, rest) := by
  obtain ⟨h1, h2, h3, h4, h5, h6⟩ := h
  simp only [putMessage, List.append_assoc, getMessage]
  rw [getNat_putNat 16 m.id _ (pow128eq ▸ h1), Option.some_bind,
    getNat_putNat 4 m.sender _ (pow32eq ▸ h2), Option.some_bind,
    getNat_putNat 4 m.recipient _ (pow32eq ▸ h3), Option.some_bind,
    getPriority_putPriority m.priority, Option.some_bind,
    getMessageType_putMessageType m.message_type _ h4, Option.some_bind,
    getNat_putNat 8 m.timestampSecs _ (pow64eq ▸ h5), Option.some_bind,
    getNat_putNat 4 m.timestampNanos rest (pow32eq ▸ h6)]
  rfl

theorem getPayload_putPayload (p : MessagePayload) (rest : List Nat) (h : WFPayload p) :
    getPayload (putPayload p ++ rest) = some (p, rest) := by
  cases p with
  | none => simp [putPayload, getPayload]
  | objectData d =>
    simp only [WFPayload] at h
    simp [putPayload, getPayload, getBytes_putBytes d rest h]
  | parameterData d =>
    simp only [WFPayload] at h
    simp [putPayload, getPayload, getBytes_putBytes d rest h]
  | custom d =>
    simp only [WFPayload] at h
    simp [putPayload, getPayload, getBytes_putBytes d rest h]

/-- C5: for every well-formed envelope, over all message kinds, priorities
and payload variants, deserializing the serialization returns the envelope
unchanged. -/
theorem c5_envelope_roundtrip (e : MessageEnvelope) (h : WFEnvelope e) :
    deserializeEnvelope (serializeEnvelope e) = some e := by
  obtain ⟨hm, hp⟩ := h
  simp [serializeEnvelope, deserializeEnvelope,
    getMessage_putMessage e.message (putPayload e.payload) hm]
  have := getPayload_putPayload e.payload [] hp
  simp only [List.append_nil] at this
  simp [this]

/-- Witness for C5 on a concrete SetParameter envelope with a vector-valued
parameter and a custom payload. -/
theorem c5_witness :
    WFEnvelope
      ⟨⟨77, 3, 4, Priority.high,
          MessageType.setParameter 9 [108, 118] (ParameterValue.vecStr [[97], []]),
          1000, 500⟩,
        MessagePayload.custom [250, 0, 7]⟩ ∧
    deserializeEnvelope (serializeEnvelope
      ⟨⟨77, 3, 4, Priority.high,
          MessageType.setParameter 9 [108, 118] (ParameterValue.vecStr [[97], []]),
          1000, 500⟩,
        MessagePayload.custom [250, 0, 7]⟩)
      = some
      ⟨⟨77, 3, 4, Priority.high,
          MessageType.setParameter 9 [108, 118] (ParameterValue.vecStr [[97], []]),
          1000, 500⟩,
        MessagePayload.custom [250, 0, 7]⟩ := by
  have hwf : WFEnvelope
      ⟨⟨77, 3, 4, Priority.high,
          MessageType.setParameter 9 [108, 118] (ParameterValue.vecStr [[97], []]),
          1000, 500⟩,
        MessagePayload.custom [250, 0, 7]⟩ := by
    simp [WFEnvelope, WFMessage, WFKind, WFValue, WFPayload]
  exact ⟨hwf, c5_envelope_roundtrip _ hwf⟩

/-! ## C3: broadcast routing -/

/-- C3 counterexample: a router with module 5 registered locally and an MPI
channel attached (rank 0 of 3) routes a broadcast envelope (recipient 0) by
sending to ranks 1 and 2 only; the locally registered queue of module 5
receives nothing, contrary to the claimed local delivery of broadcasts. -/
theorem c3_counterexample :
    (routeMessage ⟨[(5, [])], some ⟨0, 3⟩⟩
        ⟨⟨0, 1, 0, Priority.normal, MessageType.quit, 0, 0⟩, MessagePayload.none⟩).map
        (fun out => (alistLookup out.1.local_queues 5, out.2.map SentAction.sentRank))
      = Except.ok (some [], [1, 2]) := by
  rfl

/-- C3 amended: when the recipient is 0 (broadcast), not locally registered,
and an MPI channel is attached, route_message succeeds, leaves every local
queue untouched, and hands the once-serialized envelope to exactly the ranks
other than the router's own rank; local queues never see the broadcast.  When
the recipient is not locally registered and no channel is attached,
route_message fails with the no-route error. -/
theorem c3_route_broadcast (router : MessageRouter) (e : MessageEnvelope)
    (ch : MpiMessageChannel)
    (hch : router.mpi_channel = some ch)
    (hlocal : alistLookup router.local_queues e.message.recipient = none)
    (hb : e.message.recipient = 0) :
    routeMessage router e = Except.ok (router, mpiSendMessage ch e) ∧
    (∀ act ∈ mpiSendMessage ch e, ∃ k : Nat, Int.ofNat k ≠ ch.rank ∧ k < ch.size.toNat ∧
        act = SentAction.mpiSend k (serializeEnvelope e)) ∧
    (∀ k : Nat, k < ch.size.toNat → Int.ofNat k ≠ ch.rank →
        SentAction.mpiSend k (serializeEnvelope e) ∈ mpiSendMessage ch e) ∧
    (∀ r2 : MessageRouter, ∀ e2 : MessageEnvelope, r2.mpi_channel = none →
        alistLookup r2.local_queues e2.message.recipient = none →
        routeMessage r2 e2 = Except.error (CoreError.module
          ("No route to module " ++ toString e2.message.recipient))) := by
  refine ⟨?_, ?_, ?_, ?_⟩
  · simp only [routeMessage, hlocal, hch]
  · intro act hact
    simp only [mpiSendMessage, hb, reduceIte] at hact
    obtain ⟨k, hk, hsome⟩ := List.mem_filterMap.mp hact
    rw [List.mem_range] at hk
    by_cases hkr : Int.ofNat k ≠ ch.rank
    · rw [if_pos hkr] at hsome
      exact ⟨k, hkr, hk, (Option.some_injective _ hsome).symm⟩
    · rw [if_neg hkr] at hsome
      cases hsome
  · intro k hk hkr
    simp only [mpiSendMessage, hb, reduceIte]
    refine List.mem_filterMap.mpr ⟨k, List.mem_range.mpr hk, ?_⟩
    rw [if_pos hkr]
    rfl
  · intro r2 e2 hch2 hlocal2
    simp only [routeMessage, hlocal2, hch2]

/-- Witness for C3 on a rank-0-of-2 router with no local modules and a
broadcast Quit envelope. -/
theorem c3_witness :
    (⟨[], some ⟨0, 2⟩⟩ : MessageRouter).mpi_channel = some ⟨0, 2⟩ ∧
    alistLookup (⟨[], some ⟨0, 2⟩⟩ : MessageRouter).local_queues
      (⟨⟨0, 1, 0, Priority.normal, MessageType.quit, 0, 0⟩,
        MessagePayload.none⟩ : MessageEnvelope).message.recipient = none ∧
    (⟨⟨0, 1, 0, Priority.normal, MessageType.quit, 0, 0⟩,
        MessagePayload.none⟩ : MessageEnvelope).message.recipient = 0 ∧
    (routeMessage ⟨[], some ⟨0, 2⟩⟩
        ⟨⟨0, 1, 0, Priority.normal, MessageType.quit, 0, 0⟩, MessagePayload.none⟩
      = Except.ok (⟨[], some ⟨0, 2⟩⟩,
          mpiSendMessage ⟨0, 2⟩
            ⟨⟨0, 1, 0, Priority.normal, MessageType.quit, 0, 0⟩, MessagePayload.none⟩) ∧
      (∀ act ∈ mpiSendMessage ⟨0, 2⟩
          ⟨⟨0, 1, 0, Priority.normal, MessageType.quit, 0, 0⟩, MessagePayload.none⟩,
        ∃ k : Nat, Int.ofNat k ≠ (0 : Int) ∧ k < (2 : Int).toNat ∧
          act = SentAction.mpiSend k (serializeEnvelope
            ⟨⟨0, 1, 0, Priority.normal, MessageType.quit, 0, 0⟩, MessagePayload.none⟩)) ∧
      (∀ k : Nat, k < (2 : Int).toNat → Int.ofNat k ≠ (0 : Int) →
        SentAction.mpiSend k (serializeEnvelope
            ⟨⟨0, 1, 0, Priority.normal, MessageType.quit, 0, 0⟩, MessagePayload.none⟩)
          ∈ mpiSendMessage ⟨0, 2⟩
            ⟨⟨0, 1, 0, Priority.normal, MessageType.quit, 0, 0⟩, MessagePayload.none⟩) ∧
      (∀ r2 : MessageRouter, ∀ e2 : MessageEnvelope, r2.mpi_channel = none →
        alistLookup r2.local_queues e2.message.recipient = none →
        routeMessage r2 e2 = Except.error (CoreError.module
          ("No route to module " ++ toString e2.message.recipient)))) :=
  ⟨rfl, rfl, rfl,
    c3_route_broadcast ⟨[], some ⟨0, 2⟩⟩
      ⟨⟨0, 1, 0, Priority.normal, MessageType.quit, 0, 0⟩, MessagePayload.none⟩
      ⟨0, 2⟩ rfl rfl rfl⟩

/-! ## C1: arena allocator invariant -/

theorem chainFrom_sum (l : List (Nat × Nat)) :
    ∀ lo hi, chainFrom lo hi l → lo + sumLens l = hi := by
  induction l with
  | nil =>
    intro lo hi h
    simp only [chainFrom] at h
    simp [sumLens, h]
  | cons b t ih =>
    intro lo hi h
    obtain ⟨b1, b2⟩ := b
    simp only [chainFrom] at h
    obtain ⟨ho, hs, hc⟩ := h
    have hsum := ih (lo + b2) hi hc
    simp only [sumLens, List.map_cons, List.sum_cons] at hsum ⊢
    omega

theorem chainFrom_bounds (l : List (Nat × Nat)) :
    ∀ lo hi, chainFrom lo hi l → ∀ b ∈ l, lo ≤ b.1 ∧ b.1 + b.2 ≤ hi ∧ 0 < b.2 := by
  induction l with
  | nil =>
    intro lo hi _ b hb
    cases hb
  | cons hd t ih =>
    intro lo hi h b hb
    obtain ⟨h1, h2⟩ := hd
    simp only [chainFrom] at h
    obtain ⟨ho, hs, hc⟩ := h
    have htl := chainFrom_sum t (lo + h2) hi hc
    rcases List.mem_cons.mp hb with hb | hb
    · subst hb
      simp only
      omega
    · have := ih (lo + h2) hi hc b hb
      omega

theorem chainFrom_pairwise (l : List (Nat × Nat)) :
    ∀ lo hi, chainFrom lo hi l → l.Pairwise (fun b1 b2 => b1.1 + b1.2 ≤ b2.1) := by
  induction l with
  | nil =>
    intro lo hi _
    exact List.Pairwise.nil
  | cons hd t ih =>
    intro lo hi h
    obtain ⟨h1, h2⟩ := hd
    simp only [chainFrom] at h
    obtain ⟨ho, hs, hc⟩ := h
    refine List.Pairwise.cons ?_ (ih (lo + h2) hi hc)
    intro b hb
    have := chainFrom_bounds t (lo + h2) hi hc b hb
    simp only
    omega

theorem chainFrom_split_alloc (l1 : List (Nat × Nat)) :
    ∀ l2 lo hi o bs s, chainFrom lo hi (l1 ++ (o, bs) :: l2) → 0 < s → s < bs →
      chainFrom lo hi (l1 ++ (o, s) :: (o + s, bs - s) :: l2) := by
  induction l1 with
  | nil =>
    intro l2 lo hi o bs s h hs hsb
    simp only [List.nil_append, chainFrom] at h ⊢
    obtain ⟨ho, hbs, hc⟩ := h
    refine ⟨ho, hs, by omega, by omega, ?_⟩
    have heq : lo + s + (bs - s) = lo + bs := by omega
    rw [heq]
    exact hc
  | cons hd t ih =>
    intro l2 lo hi o bs s h hs hsb
    obtain ⟨h1, h2⟩ := hd
    simp only [List.cons_append, chainFrom] at h ⊢
    obtain ⟨ho, hp, hc⟩ := h
    exact ⟨ho, hp, ih l2 (lo + h2) hi o bs s hc hs hsb⟩

theorem chainFrom_merge (l1 : List (Nat × Nat)) :
    ∀ l2 lo hi o s1 s2, chainFrom lo hi (l1 ++ (o, s1) :: (o + s1, s2) :: l2) →
      chainFrom lo hi (l1 ++ (o, s1 + s2) :: l2) := by
  induction l1 with
  | nil =>
    intro l2 lo hi o s1 s2 h
    simp only [List.nil_append, chainFrom] at h ⊢
    obtain ⟨ho, hs1, ho2, hs2, hc⟩ := h
    refine ⟨ho, by omega, ?_⟩
    have heq : lo + (s1 + s2) = lo + s1 + s2 := by omega
    rw [heq]
    exact hc
  | cons hd t ih =>
    intro l2 lo hi o s1 s2 h
    obtain ⟨h1, h2⟩ := hd
    simp only [List.cons_append, chainFrom] at h ⊢
    obtain ⟨ho, hp, hc⟩ := h
    exact ⟨ho, hp, ih l2 (lo + h2) hi o s1 s2 hc⟩

theorem chainFrom_adjacent_split (l : List (Nat × Nat)) :
    ∀ lo hi o s1 s2, chainFrom lo hi l → (o, s1) ∈ l → (o + s1, s2) ∈ l →
      ∃ l1 l2, l = l1 ++ (o, s1) :: (o + s1, s2) :: l2 := by
  induction l with
  | nil =>
    intro lo hi o s1 s2 _ h1 _
    cases h1
  | cons hd t ih =>
    intro lo hi o s1 s2 h hm1 hm2
    obtain ⟨a, b⟩ := hd
    simp only [chainFrom] at h
    obtain ⟨ha, hb, hc⟩ := h
    rcases List.mem_cons.mp hm1 with hm1 | hm1
    · have heq1 : o = a ∧ s1 = b := by
        simpa [Prod.ext_iff] using hm1
      obtain ⟨rfl, rfl⟩ : o = a ∧ s1 = b := heq1
      rcases List.mem_cons.mp hm2 with hm2 | hm2
      · exfalso
        have h12 : o + s1 = o ∧ s2 = s1 := by
          simpa [Prod.ext_iff] using hm2
        omega
      · cases t with
        | nil => cases hm2
        | cons hd2 t2 =>
          obtain ⟨a2, b2⟩ := hd2
          simp only [chainFrom] at hc
          obtain ⟨ha2, hb2, hc2⟩ := hc
          rcases List.mem_cons.mp hm2 with hm2 | hm2
          · have h22 : a2 = o + s1 ∧ b2 = s2 := by
              simpa [Prod.ext_iff] using hm2.symm
            obtain ⟨rfl, rfl⟩ := h22
            exact ⟨[], t2, by simp⟩
          · exfalso
            have hbd := chainFrom_bounds t2 (lo + s1 + b2) hi hc2 (o + s1, s2) hm2
            simp only at hbd
            omega
    · rcases List.mem_cons.mp hm2 with hm2 | hm2
      · exfalso
        have hbd := chainFrom_bounds t (lo + b) hi hc (o, s1) hm1
        have h12 : o + s1 = a ∧ s2 = b := by
          simpa [Prod.ext_iff] using hm2
        simp only at hbd
        omega
      · obtain ⟨l1, l2, hl⟩ := ih (lo + b) hi o s1 s2 hc hm1 hm2
        exact ⟨(a, b) :: l1, l2, by rw [hl]; rfl⟩

theorem alistLookup_mem {κ α : Type} [DecidableEq κ] (l : List (κ × α)) (k : κ) (v : α)
    (h : alistLookup l k = some v) : (k, v) ∈ l := by
  induction l with
  | nil => cases h
  | cons hd t ih =>
    obtain ⟨a, b⟩ := hd
    simp only [alistLookup] at h
    by_cases hk : a = k
    · rw [if_pos hk] at h
      subst hk
      cases h
      exact List.mem_cons_self _ _
    · rw [if_neg hk] at h
      exact List.mem_cons_of_mem _ (ih h)

theorem alistRemove_perm {κ α : Type} [DecidableEq κ] (l : List (κ × α)) (k : κ) (v : α)
    (h : alistLookup l k = some v) : List.Perm l ((k, v) :: alistRemove l k) := by
  induction l with
  | nil => cases h
  | cons hd t ih =>
    obtain ⟨a, b⟩ := hd
    simp only [alistLookup, alistRemove] at h ⊢
    by_cases hk : a = k
    · rw [if_pos hk] at h
      rw [if_pos hk]
      subst hk
      cases h
      exact List.Perm.refl _
    · rw [if_neg hk] at h
      rw [if_neg hk]
      exact ((ih h).cons (a, b)).trans (List.Perm.swap _ _ _)

theorem alistInsert_perm {κ α : Type} [DecidableEq κ] (l : List (κ × α)) (k : κ) (v : α)
    (h : k ∉ l.map Prod.fst) : List.Perm (alistInsert l k v) ((k, v) :: l) := by
  induction l with
  | nil => exact List.Perm.refl _
  | cons hd t ih =>
    obtain ⟨a, b⟩ := hd
    simp only [List.map_cons, List.mem_cons] at h
    push_neg at h
    simp only [alistInsert]
    rw [if_neg (fun hak => h.1 hak.symm)]
    exact ((ih h.2).cons (a, b)).trans (List.Perm.swap _ _ _)

theorem sumLens_perm {l1 l2 : List (Nat × Nat)} (h : List.Perm l1 l2) :
    sumLens l1 = sumLens l2 :=
  List.Perm.sum_eq (h.map Prod.snd)

theorem partitions_perm {c : Nat} {b1 b2 : List (Nat × Nat)} (hp : List.Perm b1 b2)
    (h : Partitions c b1) : Partitions c b2 := by
  obtain ⟨l, hl, hc⟩ := h
  exact ⟨l, hl.trans hp, hc⟩

theorem partitions_sum {c : Nat} {blocks : List (Nat × Nat)} (h : Partitions c blocks) :
    sumLens blocks = c := by
  obtain ⟨l, hl, hc⟩ := h
  have := chainFrom_sum l 0 c hc
  rw [← sumLens_perm hl]
  omega

theorem partitions_pos {c : Nat} {blocks : List (Nat × Nat)} (h : Partitions c blocks) :
    ∀ b ∈ blocks, 0 < b.2 := by
  obtain ⟨l, hl, hc⟩ := h
  intro b hb
  exact (chainFrom_bounds l 0 c hc b (hl.mem_iff.mpr hb)).2.2

theorem disjBlocks_symm : ∀ {x y : Nat × Nat}, disjBlocks x y → disjBlocks y x :=
  fun h => Or.symm h

theorem adjFree_symm : ∀ {x y : Nat × Nat}, adjFree x y → adjFree y x :=
  fun h => ⟨h.2, h.1⟩

theorem partitions_pairwise_disj {c : Nat} {blocks : List (Nat × Nat)}
    (h : Partitions c blocks) : blocks.Pairwise disjBlocks := by
  obtain ⟨l, hl, hc⟩ := h
  have hp : l.Pairwise disjBlocks :=
    (chainFrom_pairwise l 0 c hc).imp (fun hab => Or.inl hab)
  exact (List.Perm.pairwise_iff disjBlocks_symm hl).mp hp

theorem partitions_offsets_nodup {c : Nat} {blocks : List (Nat × Nat)}
    (h : Partitions c blocks) : (blocks.map Prod.fst).Nodup := by
  obtain ⟨l, hl, hc⟩ := h
  have hp := chainFrom_pairwise l 0 c hc
  have hlt : l.Pairwise (fun b1 b2 : Nat × Nat => b1.1 < b2.1) := by
    refine hp.imp_of_mem ?_
    intro b1 b2 hb1 _ hle
    have := (chainFrom_bounds l 0 c hc b1 hb1).2.2
    omega
  have hmap : (l.map Prod.fst).Pairwise (fun x y : Nat => x ≠ y) := by
    rw [List.pairwise_map]
    exact hlt.imp (fun hab => Nat.ne_of_lt hab)
  exact (List.Perm.nodup_iff (hl.map Prod.fst)).mp hmap

theorem coalesceSorted_mem_offset (l : List (Nat × Nat)) :
    ∀ x ∈ coalesceSorted l, ∃ y ∈ l, x.1 = y.1 := by
  induction l using coalesceSorted.induct with
  | case1 => simp [coalesceSorted]
  | case2 x => simp [coalesceSorted]
  | case3 o1 s1 s2 t ih =>
    intro x hx
    rw [coalesceSorted, if_pos rfl] at hx
    obtain ⟨y, hy, hxy⟩ := ih x hx
    rcases List.mem_cons.mp hy with hy | hy
    · exact ⟨(o1, s1), List.mem_cons_self _ _, by rw [hxy, hy]⟩
    · exact ⟨y, List.mem_cons_of_mem _ (List.mem_cons_of_mem _ hy), hxy⟩
  | case4 o1 s1 o2 s2 t h ih =>
    intro x hx
    rw [coalesceSorted, if_neg h] at hx
    rcases List.mem_cons.mp hx with hx | hx
    · exact ⟨(o1, s1), List.mem_cons_self _ _, by rw [hx]⟩
    · obtain ⟨y, hy, hxy⟩ := ih x hx
      exact ⟨y, List.mem_cons_of_mem _ hy, hxy⟩

theorem coalesceSorted_pos (l : List (Nat × Nat)) :
    (∀ b ∈ l, 0 < b.2) → ∀ b ∈ coalesceSorted l, 0 < b.2 := by
  induction l using coalesceSorted.induct with
  | case1 =>
    intro _ b hb
    rw [coalesceSorted] at hb
    cases hb
  | case2 x =>
    intro hp b hb
    rw [coalesceSorted] at hb
    exact hp b hb
  | case3 o1 s1 s2 t ih =>
    intro hp b hb
    rw [coalesceSorted, if_pos rfl] at hb
    refine ih ?_ b hb
    intro b2 hb2
    rcases List.mem_cons.mp hb2 with hb2 | hb2
    · have h1 := hp (o1, s1) (List.mem_cons_self _ _)
      subst hb2
      simp only at h1 ⊢
      omega
    · exact hp b2 (List.mem_cons_of_mem _ (List.mem_cons_of_mem _ hb2))
  | case4 o1 s1 o2 s2 t h ih =>
    intro hp b hb
    rw [coalesceSorted, if_neg h] at hb
    rcases List.mem_cons.mp hb with hb | hb
    · subst hb
      exact hp (o1, s1) (List.mem_cons_self _ _)
    · exact ih (fun b2 hb2 => hp b2 (List.mem_cons_of_mem _ hb2)) b hb

theorem coalesceSorted_strictSep (l : List (Nat × Nat)) :
    l.Pairwise (fun b1 b2 => b1.1 + b1.2 ≤ b2.1) → (∀ b ∈ l, 0 < b.2) →
      (coalesceSorted l).Pairwise strictSep := by
  induction l using coalesceSorted.induct with
  | case1 =>
    intro _ _
    rw [coalesceSorted]
    exact List.Pairwise.nil
  | case2 x =>
    intro _ _
    rw [coalesceSorted]
    exact List.pairwise_singleton _ _
  | case3 o1 s1 s2 t ih =>
    intro hp hpos
    rw [coalesceSorted, if_pos rfl]
    obtain ⟨hp1, hp2⟩ := List.pairwise_cons.mp hp
    obtain ⟨hp3, hp4⟩ := List.pairwise_cons.mp hp2
    refine ih (List.pairwise_cons.mpr ⟨?_, hp4⟩) ?_
    · intro b hb
      have := hp3 b hb
      simp only at this ⊢
      omega
    · intro b hb
      rcases List.mem_cons.mp hb with hb | hb
      · have h1 := hpos (o1, s1) (List.mem_cons_self _ _)
        subst hb
        simp only at h1 ⊢
        omega
      · exact hpos b (List.mem_cons_of_mem _ (List.mem_cons_of_mem _ hb))
  | case4 o1 s1 o2 s2 t h ih =>
    intro hp hpos
    rw [coalesceSorted, if_neg h]
    obtain ⟨hp1, hp2⟩ := List.pairwise_cons.mp hp
    obtain ⟨hp3, hp4⟩ := List.pairwise_cons.mp hp2
    have hs2 := hpos (o2, s2) (List.mem_cons_of_mem _ (List.mem_cons_self _ _))
    have h12 : o1 + s1 < o2 := Nat.lt_of_le_of_ne (hp1 (o2, s2) (List.mem_cons_self _ _)) h
    refine List.pairwise_cons.mpr ⟨?_, ih hp2 (fun b hb => hpos b (List.mem_cons_of_mem _ hb))⟩
    intro x hx
    obtain ⟨y, hy, hxy⟩ := coalesceSorted_mem_offset _ x hx
    rcases List.mem_cons.mp hy with hy | hy
    · simp only [strictSep, hxy, hy]
      omega
    · have := hp3 y hy
      simp only [strictSep, hxy] at this ⊢
      simp only at hs2
      omega

theorem strictSep_noAdj (l : List (Nat × Nat)) (h : l.Pairwise strictSep) : NoAdj l := by
  refine h.imp ?_
  intro a b hab
  simp only [strictSep] at hab
  exact ⟨by omega, by omega⟩

theorem coalesce_partitions (c : Nat) (l : List (Nat × Nat)) :
    ∀ other : List (Nat × Nat), Partitions c (other ++ l) →
      Partitions c (other ++ coalesceSorted l) := by
  induction l using coalesceSorted.induct with
  | case1 =>
    intro other hp
    rw [coalesceSorted]
    exact hp
  | case2 x =>
    intro other hp
    rw [coalesceSorted]
    exact hp
  | case3 o1 s1 s2 t ih =>
    intro other hp
    rw [coalesceSorted, if_pos rfl]
    refine ih other ?_
    obtain ⟨l0, hperm, hchain⟩ := hp
    have hm1 : (o1, s1) ∈ l0 :=
      hperm.mem_iff.mpr (List.mem_append_right _ (List.mem_cons_self _ _))
    have hm2 : (o1 + s1, s2) ∈ l0 :=
      hperm.mem_iff.mpr
        (List.mem_append_right _ (List.mem_cons_of_mem _ (List.mem_cons_self _ _)))
    obtain ⟨l1, l2, hl0⟩ := chainFrom_adjacent_split l0 0 c o1 s1 s2 hchain hm1 hm2
    have hmerge : chainFrom 0 c (l1 ++ (o1, s1 + s2) :: l2) :=
      chainFrom_merge l1 l2 0 c o1 s1 s2 (hl0 ▸ hchain)
    refine ⟨l1 ++ (o1, s1 + s2) :: l2, ?_, hmerge⟩
    have e2 : List.Perm l0 ((o1, s1) :: (o1 + s1, s2) :: (l1 ++ l2)) := by
      rw [hl0]
      exact List.perm_middle.trans (List.perm_middle.cons _)
    have e3 : List.Perm (other ++ (o1, s1) :: (o1 + s1, s2) :: t)
        ((o1, s1) :: (o1 + s1, s2) :: (other ++ t)) :=
      List.perm_middle.trans (List.perm_middle.cons _)
    have e4 : List.Perm (l1 ++ l2) (other ++ t) :=
      ((e2.symm.trans hperm).trans e3).cons_inv.cons_inv
    exact List.perm_middle.trans ((e4.cons _).trans List.perm_middle.symm)
  | case4 o1 s1 o2 s2 t h ih =>
    intro other hp
    rw [coalesceSorted, if_neg h]
    have hp2 : Partitions c ((other ++ [(o1, s1)]) ++ (o2, s2) :: t) := by
      rw [List.append_assoc]
      exact hp
    have := ih (other ++ [(o1, s1)]) hp2
    rw [List.append_assoc] at this
    exact this

theorem sumLens_append (l1 l2 : List (Nat × Nat)) :
    sumLens (l1 ++ l2) = sumLens l1 + sumLens l2 := by
  simp [sumLens]

theorem findFit_spec (free : List (Nat × Nat)) (size : Nat) :
    ∀ o bs rest, findFit free size = some (o, bs, rest) →
      size ≤ bs ∧ List.Perm free ((o, bs) :: rest) ∧ (o, bs) ∈ free := by
  induction free with
  | nil =>
    intro o bs rest h
    cases h
  | cons hd t ih =>
    intro o bs rest h
    obtain ⟨a, b⟩ := hd
    simp only [findFit] at h
    by_cases hle : size ≤ b
    · rw [if_pos hle] at h
      cases h
      exact ⟨hle, List.Perm.refl _, List.mem_cons_self _ _⟩
    · rw [if_neg hle] at h
      cases hft : findFit t size with
      | none =>
        rw [hft] at h
        cases h
      | some trip =>
        obtain ⟨o2, bs2, rest2⟩ := trip
        rw [hft] at h
        cases h
        obtain ⟨h1, h2, h3⟩ := ih _ _ _ hft
        exact ⟨h1, (h2.cons (a, b)).trans (List.Perm.swap _ _ _),
          List.mem_cons_of_mem _ h3⟩

theorem arenaInv_allocate {c : Nat} {a : SharedAllocator} {size o : Nat}
    {a2 : SharedAllocator} (hinv : ArenaInv c a) (hs : 0 < size)
    (h : a.allocate size = some (o, a2)) : ArenaInv c a2 := by
  obtain ⟨htot, hpart, hnoadj⟩ := hinv
  simp only [SharedAllocator.allocate] at h
  cases hft : findFit a.free_blocks size with
  | none =>
    rw [hft] at h
    cases h
  | some trip =>
    obtain ⟨o1, bs, rest⟩ := trip
    rw [hft] at h
    simp only at h
    cases h
    obtain ⟨hle, hperm, hmem⟩ := findFit_spec _ _ _ _ _ hft
    have hcomb : List.Perm (a.allocations ++ a.free_blocks)
        ((o, bs) :: (a.allocations ++ rest)) :=
      (hperm.append_left a.allocations).trans List.perm_middle
    have hpart2 : Partitions c ((o, bs) :: (a.allocations ++ rest)) :=
      partitions_perm hcomb hpart
    have hbs : 0 < bs := partitions_pos hpart (o, bs) (List.mem_append_right _ hmem)
    have hnotkey : o ∉ a.allocations.map Prod.fst := by
      intro hin
      have hnd := partitions_offsets_nodup hpart
      rw [List.map_append] at hnd
      exact (List.disjoint_of_nodup_append hnd) hin
        (List.mem_map.mpr ⟨(o, bs), hmem, rfl⟩)
    have hinsert : List.Perm (alistInsert a.allocations o size)
        ((o, size) :: a.allocations) :=
      alistInsert_perm _ _ _ hnotkey
    have hnoadj2 : List.Pairwise adjFree ((o, bs) :: rest) :=
      (List.Perm.pairwise_iff adjFree_symm hperm).mp hnoadj
    have hrest_noadj : List.Pairwise adjFree rest := (List.pairwise_cons.mp hnoadj2).2
    by_cases hlt : size < bs
    · rw [if_pos hlt]
      refine ⟨htot, ?_, ?_⟩
      · -- the split block replaces the chosen free block in the tiling
        have pnew : List.Perm
            (alistInsert a.allocations o size ++ (rest ++ [(o + size, bs - size)]))
            ((o, size) :: (o + size, bs - size) :: (a.allocations ++ rest)) := by
          refine (hinsert.append_right _).trans ?_
          have e1 : ((o, size) :: a.allocations) ++ (rest ++ [(o + size, bs - size)])
              = (o, size) :: (a.allocations ++ rest ++ [(o + size, bs - size)]) := by
            simp [List.append_assoc]
          rw [e1]
          refine List.Perm.cons _ ?_
          exact (List.perm_append_singleton _ _)
        obtain ⟨l0, hperm0, hchain0⟩ := hpart2
        have hm0 : (o, bs) ∈ l0 := hperm0.mem_iff.mpr (List.mem_cons_self _ _)
        obtain ⟨l1, l2, hl0⟩ := List.append_of_mem hm0
        have hchain1 : chainFrom 0 c (l1 ++ (o, size) :: (o + size, bs - size) :: l2) :=
          chainFrom_split_alloc l1 l2 0 c o bs size (hl0 ▸ hchain0) hs hlt
        have e2 : List.Perm (l1 ++ l2) (a.allocations ++ rest) := by
          have h1 : List.Perm l0 ((o, bs) :: (l1 ++ l2)) := by
            rw [hl0]
            exact List.perm_middle
          exact (h1.symm.trans hperm0).cons_inv
        refine ⟨l1 ++ (o, size) :: (o + size, bs - size) :: l2, ?_, hchain1⟩
        refine List.Perm.trans ?_ pnew.symm
        exact List.perm_middle.trans
          ((List.perm_middle.cons _).trans ((e2.cons _).cons _))
      · -- the remainder block is non-adjacent to every remaining free block
        rw [NoAdj, List.pairwise_append]
        refine ⟨hrest_noadj, List.pairwise_singleton _ _, ?_⟩
        intro x hx y hy
        rcases List.mem_singleton.mp hy with rfl
        have hxfree : x ∈ a.free_blocks :=
          hperm.mem_iff.mpr (List.mem_cons_of_mem _ hx)
        have hxpos : 0 < x.2 :=
          partitions_pos hpart x (List.mem_append_right _ hxfree)
        have hdisjfree : List.Pairwise disjBlocks a.free_blocks :=
          List.Pairwise.sublist (List.sublist_append_right _ _)
            (partitions_pairwise_disj hpart)
        have hdisj2 : List.Pairwise disjBlocks ((o, bs) :: rest) :=
          (List.Perm.pairwise_iff disjBlocks_symm hperm).mp hdisjfree
        have hdx : disjBlocks (o, bs) x := (List.pairwise_cons.mp hdisj2).1 x hx
        have hax : adjFree (o, bs) x := (List.pairwise_cons.mp hnoadj2).1 x hx
        obtain ⟨x1, x2⟩ := x
        simp only [adjFree, disjBlocks] at hdx hax ⊢
        simp only at hxpos
        omega
    · rw [if_neg hlt]
      have hsz : size = bs := by omega
      subst hsz
      refine ⟨htot, ?_, hrest_noadj⟩
      refine partitions_perm ?_ hpart2
      refine List.Perm.symm ?_
      exact (hinsert.append_right _).trans (List.Perm.refl _)

theorem arenaInv_deallocate {c : Nat} {a : SharedAllocator} {offset size : Nat}
    {a2 : SharedAllocator} (hinv : ArenaInv c a)
    (hlook : alistLookup a.allocations offset = some size)
    (h : a.deallocate offset size = some a2) : ArenaInv c a2 := by
  obtain ⟨htot, hpart, hnoadj⟩ := hinv
  simp only [SharedAllocator.deallocate, hlook] at h
  cases h
  have hremperm : List.Perm a.allocations
      ((offset, size) :: alistRemove a.allocations offset) :=
    alistRemove_perm _ _ _ hlook
  have hcomb : List.Perm (a.allocations ++ a.free_blocks)
      (alistRemove a.allocations offset ++ (a.free_blocks ++ [(offset, size)])) := by
    refine (hremperm.append_right _).trans ?_
    have e1 : ((offset, size) :: alistRemove a.allocations offset) ++ a.free_blocks
        = (offset, size) :: (alistRemove a.allocations offset ++ a.free_blocks) := rfl
    rw [e1]
    have e2 : alistRemove a.allocations offset ++ (a.free_blocks ++ [(offset, size)])
        = (alistRemove a.allocations offset ++ a.free_blocks) ++ [(offset, size)] := by
      simp [List.append_assoc]
    rw [e2]
    exact (List.perm_append_singleton _ _).symm
  have hpart2 : Partitions c
      (alistRemove a.allocations offset ++ (a.free_blocks ++ [(offset, size)])) :=
    partitions_perm hcomb hpart
  have hsortperm : List.Perm
      (List.insertionSort offLE (a.free_blocks ++ [(offset, size)]))
      (a.free_blocks ++ [(offset, size)]) :=
    List.perm_insertionSort offLE _
  have hpart3 : Partitions c (alistRemove a.allocations offset ++
      List.insertionSort offLE (a.free_blocks ++ [(offset, size)])) :=
    partitions_perm (List.Perm.append_left _ hsortperm.symm) hpart2
  have hsorted : List.Pairwise offLE
      (List.insertionSort offLE (a.free_blocks ++ [(offset, size)])) :=
    List.sorted_insertionSort offLE _
  have hpos : ∀ b ∈ List.insertionSort offLE (a.free_blocks ++ [(offset, size)]),
      0 < b.2 :=
    fun b hb => partitions_pos hpart3 b (List.mem_append_right _ hb)
  have hdisj : List.Pairwise disjBlocks
      (List.insertionSort offLE (a.free_blocks ++ [(offset, size)])) :=
    List.Pairwise.sublist (List.sublist_append_right _ _)
      (partitions_pairwise_disj hpart3)
  have hord : List.Pairwise (fun b1 b2 : Nat × Nat => b1.1 + b1.2 ≤ b2.1)
      (List.insertionSort offLE (a.free_blocks ++ [(offset, size)])) := by
    refine (hsorted.and hdisj).imp_of_mem ?_
    intro b1 b2 hb1 hb2 hb
    obtain ⟨hleq, hdj⟩ := hb
    have hp2 := hpos b2 hb2
    simp only [offLE] at hleq
    simp only [disjBlocks] at hdj
    omega
  constructor
  · exact htot
  constructor
  · exact coalesce_partitions c _ (alistRemove a.allocations offset) hpart3
  · exact strictSep_noAdj _ (coalesceSorted_strictSep _ hord hpos)

theorem arenaInv_new {c : Nat} (hc : 0 < c) : ArenaInv c (SharedAllocator.new c) := by
  refine ⟨rfl, ⟨[(0, c)], List.Perm.refl _, ?_⟩, List.pairwise_singleton _ _⟩
  show (0 : Nat) = 0 ∧ 0 < c ∧ ((0 : Nat) + c = c)
  exact ⟨rfl, hc, by omega⟩

theorem arenaInv_step {c : Nat} {a a2 : SharedAllocator} (hinv : ArenaInv c a)
    (h : ArenaStep a a2) : ArenaInv c a2 := by
  cases h with
  | alloc size o a2 hs hall => exact arenaInv_allocate hinv hs hall
  | dealloc offset size a2 hlook hde => exact arenaInv_deallocate hinv hlook hde

/-- C1 (amended): for every sequence of arena operations as issued by
SharedArena (allocations of positive size, deallocations carrying the
recorded length), every reachable allocator state satisfies
Σlen(allocations) + Σlen(free_blocks) = capacity, and no two free extents
are offset-adjacent; the free list is however not kept sorted by offset
after an allocation splits a block. -/
theorem c1_arena_sum_coalesced (c : Nat) (a : SharedAllocator) (hc : 0 < c)
    (h : ArenaReachable c a) :
    sumLens a.allocations + sumLens a.free_blocks = c ∧ NoAdj a.free_blocks := by
  have hinv : ArenaInv c a := by
    induction h with
    | refl => exact arenaInv_new hc
    | tail hsteps hstep ih => exact arenaInv_step ih hstep
  obtain ⟨htot, hpart, hnoadj⟩ := hinv
  have hsum := partitions_sum hpart
  rw [sumLens_append] at hsum
  exact ⟨hsum, hnoadj⟩

/-- Witness for C1: after one 1-byte allocation from a fresh 4-byte arena
the invariant holds. -/
theorem c1_witness :
    0 < 4 ∧ ArenaReachable 4 ⟨4, [(0, 1)], [(1, 3)]⟩ ∧
    (sumLens (⟨4, [(0, 1)], [(1, 3)]⟩ : SharedAllocator).allocations
        + sumLens (⟨4, [(0, 1)], [(1, 3)]⟩ : SharedAllocator).free_blocks = 4 ∧
      NoAdj (⟨4, [(0, 1)], [(1, 3)]⟩ : SharedAllocator).free_blocks) := by
  have hreach : ArenaReachable 4 ⟨4, [(0, 1)], [(1, 3)]⟩ :=
    Relation.ReflTransGen.single
      (ArenaStep.alloc (SharedAllocator.new 4) 1 0 ⟨4, [(0, 1)], [(1, 3)]⟩
        (by decide) (by rfl))
  exact ⟨by decide, hreach, c1_arena_sum_coalesced 4 _ (by decide) hreach⟩

/-- C1 counterexample: the claimed sortedness of free_blocks fails.  On a
20-byte arena, allocate 5, 5, 5, deallocate the first block, then allocate 3:
the split remainder is pushed at the back of the free list, leaving
free_blocks = [(15, 5), (3, 2)], which is not sorted by offset. -/
theorem c1_counterexample :
    (((SharedAllocator.new 20).allocate 5).bind (fun p1 =>
      (p1.2.allocate 5).bind (fun p2 =>
      (p2.2.allocate 5).bind (fun p3 =>
      (p3.2.deallocate 0 5).bind (fun a4 =>
      (a4.allocate 3).map (fun p5 => p5.2.free_blocks))))))
      = some [(15, 5), (3, 2)] ∧
    ¬ List.Pairwise offLE [(15, 5), (3, 2)] := by
  constructor
  · simp [SharedAllocator.new, SharedAllocator.allocate, SharedAllocator.deallocate,
      findFit, alistInsert, alistLookup, alistRemove, coalesceFreeBlocks, coalesceSorted,
      List.insertionSort, List.orderedInsert, offLE]
  · intro hp
    have := (List.pairwise_cons.mp hp).1 (3, 2) (List.mem_cons_self _ _)
    simp only [offLE] at this
    omega
